import Mathlib

/-!
# SemanticDB — verification of the graph core against its specification

Shallow embedding of the SemanticDB core (`semantic_db/core/relations.py`,
`semantic_db/core/graph.py`, `semantic_db/core/coherence.py`,
`semantic_db/phi_layer/dreaming.py`, `semantic_db/phi_layer/rql_parser.py`).

Modelling conventions:
* Python floats are modelled as exact rationals (`ℚ`).
* Python dicts are modelled as insertion-ordered association lists
  (`List (String × α)`) with update-in-place semantics (`alSet`).
* Python sets are modelled as duplicate-free lists (`sinsert` keeps first
  occurrences); only membership and cardinality of these sets are ever used.
* `datetime.now()` is modelled by threading an explicit time parameter `now : ℚ`
  (measured in days for tensor lifecycle fields, in hours for the coherence
  history); `timedelta(days=n)` becomes `+ n`.
* `uuid.uuid4()`-generated identifiers are modelled by explicit id arguments or
  by a per-graph counter: only freshness, never the actual digits, matters.
* Exceptions (`ValueError`) are modelled by `Option`: `none` is a raise.
-/

set_option maxRecDepth 100000

namespace SemanticDB

/-- Lookup in an insertion-ordered association list (Python `dict[k]` / `get`). -/
def alGet {α : Type} (m : List (String × α)) (k : String) : Option α :=
  match m with
  | [] => none
  | (k', v) :: rest => if k' = k then some v else alGet rest k

/-- Python `dict.get(k, d)`. -/
def alGetD {α : Type} (m : List (String × α)) (k : String) (d : α) : α :=
  (alGet m k).getD d

/-- Python `k in dict`. -/
def alHas {α : Type} (m : List (String × α)) (k : String) : Bool :=
  (alGet m k).isSome

/-- Python `dict[k] = v`: updates in place, appends new keys at the end
(insertion order preserved, as CPython dicts do). -/
def alSet {α : Type} (m : List (String × α)) (k : String) (v : α) : List (String × α) :=
  match m with
  | [] => [(k, v)]
  | (k', v') :: rest => if k' = k then (k, v) :: rest else (k', v') :: alSet rest k v

/-- Update an existing key only; a missing key leaves the list unchanged
(Python mutation through an object reference held in a registry). -/
def alUpd {α : Type} (m : List (String × α)) (k : String) (v : α) : List (String × α) :=
  match m with
  | [] => []
  | (k', v') :: rest => if k' = k then (k, v) :: rest else (k', v') :: alUpd rest k v

def alKeys {α : Type} (m : List (String × α)) : List String := m.map Prod.fst

/-- Python `set.add`: duplicate-free list keeping first insertion. -/
def sinsert (s : List String) (x : String) : List String :=
  if x ∈ s then s else s ++ [x]

/-- Python `set(l)`. -/
def slist (l : List String) : List String := l.foldl sinsert []

/-- Python `a | b` on sets (represented as duplicate-free lists). -/
def sunion (a b : List String) : List String := b.foldl sinsert a

/-- Python `a & b` on sets (represented as duplicate-free lists). -/
def sinter (a b : List String) : List String := a.filter (· ∈ b)

/-!
### Python string methods

A Python `str` is a sequence of code points, which `List Char` models exactly;
the methods used by the source are defined over the character list (the
byte-position-based Lean core versions are extensionally the same on valid
input but are opaque to evaluation).
-/

/-- Python `s.startswith(p)`. -/
def pyStartsWith (s p : String) : Bool := p.data.isPrefixOf s.data

/-- Python `s.endswith(p)`. -/
def pyEndsWith (s p : String) : Bool := p.data.isSuffixOf s.data

/-- Python `s.strip()`. -/
def pyStrip (s : String) : String :=
  ⟨(((s.data.dropWhile Char.isWhitespace).reverse.dropWhile Char.isWhitespace).reverse)⟩

/-- Python `s[n:]`. -/
def pyDrop (s : String) (n : Nat) : String := ⟨s.data.drop n⟩

/-- Python `s[:-n]`. -/
def pyDropRight (s : String) (n : Nat) : String := ⟨s.data.take (s.data.length - n)⟩

/-- Python `s.replace(pat, rep)` for a nonempty pattern: replaces every
non-overlapping occurrence left to right.  The fuel argument (initially the
string length) only witnesses termination; every recursive call consumes at
least one character. -/
def replaceLoop (pat rep : List Char) : Nat → List Char → List Char
  | 0, s => s
  | _ + 1, [] => []
  | fuel + 1, c :: rest =>
    if pat.isPrefixOf (c :: rest) then
      rep ++ replaceLoop pat rep fuel ((c :: rest).drop pat.length)
    else c :: replaceLoop pat rep fuel rest

def pyReplace (s pat rep : String) : String :=
  if pat.data.isEmpty then s
  else ⟨replaceLoop pat.data rep.data s.data.length s.data⟩

/-- Python `s.split(pat)` for a nonempty pattern. -/
def splitLoop (pat : List Char) : Nat → List Char → List Char → List (List Char)
  | 0, s, cur => [cur ++ s]
  | _ + 1, [], cur => [cur]
  | fuel + 1, c :: rest, cur =>
    if pat.isPrefixOf (c :: rest) then
      cur :: splitLoop pat fuel ((c :: rest).drop pat.length) []
    else splitLoop pat fuel rest (cur ++ [c])

def pySplit (s pat : String) : List String :=
  if pat.data.isEmpty then [s]
  else (splitLoop pat.data s.data.length s.data []).map fun l => ⟨l⟩

/-- Python `int(s)`: optional surrounding whitespace, optional sign, at least
one digit. -/
def digitsToNat (cs : List Char) : Option Nat :=
  if cs.isEmpty then none
  else cs.foldl (fun acc c =>
    match acc with
    | none => none
    | some n => if c.isDigit then some (n * 10 + (c.toNat - 48)) else none) (some 0)

def pyToInt (s : String) : Option Int :=
  let cs := (pyStrip s).data
  match cs with
  | '-' :: rest => (digitsToNat rest).map fun n => -(n : Int)
  | '+' :: rest => (digitsToNat rest).map fun n => (n : Int)
  | _ => (digitsToNat cs).map fun n => (n : Int)

/-- Python `max` over a nonempty collection (0 on the empty list, which the
source never reaches because every use is guarded by a nonemptiness test). -/
def qmax : List ℚ → ℚ
  | [] => 0
  | [x] => x
  | x :: y :: rest => max x (qmax (y :: rest))

/-- Mean of the values of a context map (Python `sum(d.values()) / len(d)`). -/
def ctxMean (m : List (String × ℚ)) : ℚ :=
  (m.map Prod.snd).sum / m.length

/-!
## `RelationTensor` (`semantic_db/core/relations.py`)

Fields not used by any claim (`fair_care_metadata`, the repr) are omitted;
everything the claims touch is carried. `last_activated` is always set (the
dataclass `__post_init__` replaces `None` by `created_at`).
-/

structure RelationTensor where
  source : String
  target : String
  type : String := "Λ"
  meaning : String := ""
  intention : String := ""
  certainty : ℚ := 7/10
  tension : ℚ := 0
  coherence_contribution : ℚ := 0
  certainty_by_context : List (String × ℚ) := []
  tension_by_context : List (String × ℚ) := []
  habeas_weight_id : String := ""
  ethical_status : String := "active"
  lifespan : ℚ := 0
  activation_count : Nat := 0
  last_activated : ℚ := 0
  created_at : ℚ := 0
  updated_at : ℚ := 0
  parent_tensors : List String := []
  child_tensors : List String := []
  suggested : Bool := false
deriving DecidableEq

namespace RelationTensor

/-- `_recalculate_metrics`. The 30-day dormancy test compares elapsed days;
time is measured in days here, so `(now - created_at).days > 30` becomes the
rational comparison `now - created_at > 30` (no claim exercises a fractional
elapsed time on this branch). -/
def recalcMetrics (t : RelationTensor) (now : ℚ) : RelationTensor :=
  let t := if t.certainty_by_context.isEmpty then t
    else { t with certainty := ctxMean t.certainty_by_context }
  let t := if t.tension_by_context.isEmpty then t
    else { t with tension := qmax (t.tension_by_context.map Prod.snd) }
  let t := { t with coherence_contribution := t.certainty * (1 - t.tension) }
  if t.tension > 4/5 then { t with ethical_status := "conflicted" }
  else if t.activation_count = 0 ∧ now - t.created_at > 30 then
    { t with ethical_status := "sleeping" }
  else { t with ethical_status := "active" }

/-- The dataclass field defaults. The uuid-generated `habeas_weight_id` is an
explicit argument (only its freshness ever matters). -/
def defaults (now : ℚ) (hwId : String) : RelationTensor :=
  { source := "", target := "", habeas_weight_id := hwId,
    lifespan := now + 365, last_activated := now,
    created_at := now, updated_at := now }

/-- `__post_init__`: seed the context map with `genesis` when empty, then
recompute the derived metrics. -/
def postInit (t : RelationTensor) (now : ℚ) : RelationTensor :=
  let t := if t.certainty_by_context.isEmpty then
      { t with certainty_by_context := [("genesis", t.certainty)] }
    else t
  recalcMetrics t now

/-- `activate(context_id)`. -/
def activate (t : RelationTensor) (context_id : String) (now : ℚ) : RelationTensor :=
  let t := { t with activation_count := t.activation_count + 1, last_activated := now }
  let t := if t.certainty < 19/20 then
      { t with certainty := min (19/20) (t.certainty * (51/50)) }
    else t
  let t :=
    if alHas t.certainty_by_context context_id then
      let old := alGetD t.certainty_by_context context_id 0
      { t with certainty_by_context :=
          alSet t.certainty_by_context context_id ((old + t.certainty) / 2) }
    else
      { t with certainty_by_context := alSet t.certainty_by_context context_id t.certainty }
  recalcMetrics { t with updated_at := now } now

/-- `update_from_context(context_id, new_certainty, new_tension=0)`. -/
def update_from_context (t : RelationTensor) (context_id : String)
    (new_certainty : ℚ) (new_tension : ℚ) (now : ℚ) : RelationTensor :=
  let current := alGetD t.certainty_by_context context_id new_certainty
  let cbc := alSet t.certainty_by_context context_id ((current + new_certainty) / 2)
  let t := { t with certainty_by_context := cbc }
  let currentTension := alGetD t.tension_by_context context_id 0
  let tbc := alSet t.tension_by_context context_id (max currentTension new_tension)
  let t := { t with tension_by_context := tbc }
  activate (recalcMetrics t now) context_id now

/-- `split(variant_meaning, new_type)`: returns the child and the updated
parent (the parent gains a child pointer). `childId` models the fresh uuid. -/
def split (t : RelationTensor) (variant_meaning : String) (new_type : Option String)
    (now : ℚ) (childId : String) : RelationTensor × RelationTensor :=
  let child := postInit { (defaults now childId) with
    source := t.source, target := t.target,
    type := new_type.getD t.type,
    meaning := "Вариант: " ++ variant_meaning,
    intention := "Разделение от " ++ t.habeas_weight_id,
    certainty := t.certainty * (4/5), tension := t.tension } now
  let inherited := t.certainty_by_context.foldl
    (fun m p => alSet m p.1 (p.2 * (4/5))) child.certainty_by_context
  let child := { child with certainty_by_context := inherited, parent_tensors := [t.habeas_weight_id] }
  (child, { t with child_tensors := t.child_tensors ++ [childId] })

/-- `merge_with(other)`: `none` models the `ValueError` raised for
non-homogeneous tensors. `mergedId` models the fresh uuid. The Python union
`set(a) | set(b)` is iterated in unspecified order; `sunion` is the
deterministic stand-in (every statement proved about the result is
order-insensitive). -/
def merge_with (t other : RelationTensor) (now : ℚ) (mergedId : String) :
    Option RelationTensor :=
  if ¬(t.source = other.source ∧ t.target = other.target ∧ t.type = other.type) then
    none
  else
    let merged := postInit { (defaults now mergedId) with
      source := t.source, target := t.target, type := t.type,
      meaning := "Σ(" ++ t.meaning ++ ", " ++ other.meaning ++ ")",
      certainty := (t.certainty + other.certainty) / 2,
      tension := max t.tension other.tension } now
    let allCtx := sunion (alKeys t.certainty_by_context) (alKeys other.certainty_by_context)
    let mergedCbc := allCtx.foldl
      (fun m c => alSet m c
        ((alGetD t.certainty_by_context c 0 + alGetD other.certainty_by_context c 0) / 2))
      merged.certainty_by_context
    let merged := { merged with certainty_by_context := mergedCbc }
    some { merged with parent_tensors := [t.habeas_weight_id, other.habeas_weight_id] }

end RelationTensor

/-!
## `TensorSemanticGraph` (`semantic_db/core/graph.py`)

The `networkx.MultiDiGraph` is modelled as an insertion-ordered node table plus
an insertion-ordered global edge list; `G[u][v].items()` iterates the parallel
edges of a pair in insertion order, which the filtered edge list preserves.
Each stored tensor is referenced both from its adjacency slot and from the
`tensor_registry`; Python mutates one shared object, so the model updates both
entries.  Edge keys embed a per-graph counter where the source embeds a uuid
fragment — only freshness matters.
-/

/-- Node attributes after `add_node`'s required-metadata stamping.  The
heterogeneous input dict of `add_node` carries at most these keys at every
in-scope call site. -/
structure NodeAttrs where
  habeas_weight_id : String := ""
  type : String := "entity"
  creator : String := "system"
  domain : String := "general"
  meaning : String := ""
  name : String := ""
  created_at : ℚ := 0
  lifespan : ℚ := 0
  activation_count : Nat := 0
  ethical_status : String := "active"
deriving DecidableEq

/-- The optional attributes passed into `add_node` (a Python dict with
optional keys). -/
structure AttrsIn where
  habeas_weight_id : Option String := none
  type : Option String := none
  creator : Option String := none
  domain : Option String := none
  meaning : Option String := none
  name : Option String := none
deriving DecidableEq

/-- One keyed parallel edge of the multigraph, with the attributes
`add_edge` stores. -/
structure Edge where
  source : String
  target : String
  key : String
  tensor : RelationTensor
  created_at : ℚ
  context_id : String
deriving DecidableEq

/-- Per-context statistics (`context_registry` values). -/
structure ContextMeta where
  created_at : ℚ := 0
  tensor_count : Nat := 0
  avg_certainty : ℚ := 0
deriving DecidableEq

structure TensorSemanticGraph where
  name : String := "ЖивойГраф"
  nodes : List (String × NodeAttrs) := []
  edges : List Edge := []
  context_registry : List (String × ContextMeta) := []
  tensor_registry : List (String × RelationTensor) := []
  conflict_zones : List String := []
  dreaming_queue : List (ℚ × String × String) := []
  total_activations : Nat := 0
  last_dreaming : Option ℚ := none
  uuid_counter : Nat := 0
deriving DecidableEq

namespace TensorSemanticGraph

def hasNode (g : TensorSemanticGraph) (n : String) : Bool := alHas g.nodes n

def nodeNames (g : TensorSemanticGraph) : List String := g.nodes.map Prod.fst

/-- `G.has_edge(u, v)`. -/
def hasEdge (g : TensorSemanticGraph) (u v : String) : Bool :=
  g.edges.any fun e => e.source == u && e.target == v

/-- `G[u][v].items()` in insertion order. -/
def edgesBetween (g : TensorSemanticGraph) (u v : String) : List Edge :=
  g.edges.filter fun e => e.source == u && e.target == v

/-- `G.successors(u)`: distinct out-neighbours, in first-edge-insertion order
(also what `G.neighbors(u)` yields on a directed graph). -/
def successors (g : TensorSemanticGraph) (u : String) : List String :=
  slist ((g.edges.filter fun e => e.source == u).map Edge.target)

/-- `G.predecessors(u)`: distinct in-neighbours. -/
def predecessors (g : TensorSemanticGraph) (u : String) : List String :=
  slist ((g.edges.filter fun e => e.target == u).map Edge.source)

/-- `G.degree(u)` on a multidigraph: in-degree plus out-degree, counting
parallel edges. -/
def degree (g : TensorSemanticGraph) (u : String) : Nat :=
  (g.edges.filter fun e => e.source == u).length
    + (g.edges.filter fun e => e.target == u).length

/-- `heapq.heappush` on the `(-priority, u, v)` queue: the queue is kept as
the sorted list of its entries, which is extensionally the order in which
`heapq.heappop` delivers them (ties compare the node names like Python tuple
comparison does). -/
def queueLt (a b : ℚ × String × String) : Bool :=
  decide (a.1 < b.1)
    || (a.1 == b.1 && (decide (a.2.1 < b.2.1)
    || (a.2.1 == b.2.1 && decide (a.2.2 < b.2.2))))

def heappush (q : List (ℚ × String × String)) (x : ℚ × String × String) :
    List (ℚ × String × String) :=
  match q with
  | [] => [x]
  | y :: rest => if queueLt x y then x :: y :: rest else y :: heappush rest x

/-- `add_node(name, attributes)`: stamps required metadata and inserts (or
overwrites) the node; returns the habeas-weight id.  A missing
`habeas_weight_id` is generated from the uuid counter. -/
def add_node (g : TensorSemanticGraph) (nm : String) (attrs : AttrsIn) (now : ℚ) :
    TensorSemanticGraph × String :=
  let generated := attrs.habeas_weight_id.isNone
  let hw := attrs.habeas_weight_id.getD ("N_" ++ nm ++ "_" ++ toString g.uuid_counter)
  let na : NodeAttrs := {
    habeas_weight_id := hw,
    created_at := now,
    type := attrs.type.getD "entity",
    creator := attrs.creator.getD "system",
    domain := attrs.domain.getD "general",
    meaning := attrs.meaning.getD "",
    name := attrs.name.getD "",
    lifespan := now + 365,
    activation_count := 0,
    ethical_status := "active" }
  ({ g with nodes := alSet g.nodes nm na,
            uuid_counter := if generated then g.uuid_counter + 1 else g.uuid_counter },
   hw)

/-- Result of `add_tensor`: the returned habeas-weight id, the new graph
state, and the incoming record as left after its in-place mutation. -/
structure AddResult where
  id : String
  graph : TensorSemanticGraph
  relation : RelationTensor
deriving DecidableEq

/-- `add_tensor`, endpoint phase: auto-create a missing endpoint node. -/
def ensureNode (g : TensorSemanticGraph) (n : String) (now : ℚ) : TensorSemanticGraph :=
  if hasNode g n then g
  else (add_node g n { type := some "entity", name := some n } now).1

/-- `add_tensor`, conflict phase: every existing same-pair edge of the same
type with a different meaning, while the incoming certainty exceeds 0.5,
sends both habeas-weight ids into the conflict-zone set. -/
def markConflicts (g : TensorSemanticGraph) (relation : RelationTensor) :
    TensorSemanticGraph :=
  let conflicts := (edgesBetween g relation.source relation.target).filter fun e =>
    e.tensor.type == relation.type && e.tensor.meaning != relation.meaning
      && decide (relation.certainty > 1/2)
  conflicts.foldl
    (fun g e =>
      let cz := sinsert (sinsert g.conflict_zones e.tensor.habeas_weight_id)
        relation.habeas_weight_id
      { g with conflict_zones := cz })
    g

/-- `add_tensor`, context phase: register an unknown context id. -/
def registerContext (g : TensorSemanticGraph) (context_id : String) (now : ℚ) :
    TensorSemanticGraph :=
  if alHas g.context_registry context_id then g
  else
    let cr := alSet g.context_registry context_id { created_at := now }
    { g with context_registry := cr }

/-- `add_tensor`, merge lookup: the first existing same-pair edge with
identical type and meaning, when `auto_merge` is on. -/
def mergeMatch (g : TensorSemanticGraph) (relation : RelationTensor)
    (auto_merge : Bool) : Option Edge :=
  if auto_merge then
    (edgesBetween g relation.source relation.target).find? fun e =>
      e.tensor.type == relation.type && e.tensor.meaning == relation.meaning
  else none

/-- `add_tensor`, merge branch: fold the incoming confidence into the
existing record (updating its adjacency slot and its registry entry — both
alias one Python object), adopt the longer meaning, return the existing id. -/
def mergeInto (g : TensorSemanticGraph) (e : Edge) (relation : RelationTensor)
    (context_id : String) (now : ℚ) : AddResult :=
  let et := e.tensor.update_from_context context_id relation.certainty 0 now
  let et := if relation.meaning.length > et.meaning.length then
      { et with meaning := relation.meaning }
    else et
  let g := { g with
    edges := g.edges.map fun e' => if e'.key == e.key then { e' with tensor := et } else e',
    tensor_registry := alUpd g.tensor_registry e.tensor.habeas_weight_id et }
  { id := e.tensor.habeas_weight_id, graph := g, relation := relation }

/-- `add_tensor`, insert branch: a fresh keyed edge, registry entry, dreaming
queue push and statistics update. -/
def insertNew (g : TensorSemanticGraph) (relation : RelationTensor)
    (context_id : String) (now : ℚ) : AddResult :=
  let u := relation.source
  let v := relation.target
  let key := u ++ "→" ++ v ++ ":" ++ relation.type ++ ":" ++ toString g.uuid_counter
  let g := { g with uuid_counter := g.uuid_counter + 1 }
  let newEdge : Edge := { source := u, target := v, key := key, tensor := relation,
                          created_at := now, context_id := context_id }
  let g := { g with edges := g.edges ++ [newEdge] }
  let reg := alSet g.tensor_registry relation.habeas_weight_id relation
  let g := { g with tensor_registry := reg }
  let priority := relation.certainty * (1 - relation.tension)
  let g := { g with dreaming_queue := heappush g.dreaming_queue (-priority, u, v) }
  let g := { g with total_activations := g.total_activations + 1 }
  let ctxMeta := alGetD g.context_registry context_id {}
  let cr := alUpd g.context_registry context_id
    { ctxMeta with tensor_count := ctxMeta.tensor_count + 1 }
  let g := { g with context_registry := cr }
  { id := relation.habeas_weight_id, graph := g, relation := relation }

/-- `add_tensor(relation, context_id="global", auto_merge=True)`. -/
def add_tensor (g : TensorSemanticGraph) (relation : RelationTensor)
    (context_id : String) (auto_merge : Bool) (now : ℚ) : AddResult :=
  let g := ensureNode g relation.source now
  let g := ensureNode g relation.target now
  let g := markConflicts g relation
  let g := registerContext g context_id now
  -- update the incoming tensor from the context (in-place mutation; its
  -- source, target, type and meaning are untouched)
  let relation := relation.update_from_context context_id relation.certainty 0 now
  match mergeMatch g relation auto_merge with
  | some e => mergeInto g e relation context_id now
  | none => insertNew g relation context_id now

/-!
### `dreaming_cycle` (`graph.py`)

The loop pops `temp_queue` (a copy of the heap) until it is empty or
`max_suggestions` suggestions are collected.  Because an iteration appends at
most one suggestion and every iteration after the cap is reached appends
nothing, folding a capacity-guarded step over the already-sorted queue is
extensionally the same computation.
-/

structure DreamState where
  processed : List (String × String)
  suggestions : List RelationTensor
deriving DecidableEq

/-- One iteration of the `dreaming_cycle` while-loop body (plus the loop
guard `len(suggestions) < max_suggestions` folded in). -/
def dreamStep (g : TensorSemanticGraph) (maxS : Nat) (now : ℚ)
    (st : DreamState) (item : ℚ × String × String) : DreamState :=
  if st.suggestions.length ≥ maxS then st
  else
    let u := item.2.1
    let v := item.2.2
    if (u, v) ∈ st.processed then st
    else
      let st := { st with processed := st.processed ++ [(u, v)] }
      if hasEdge g u v || hasEdge g v u then st
      else
        let uN := sunion (successors g u) (predecessors g u)
        let vN := sunion (successors g v) (predecessors g v)
        if uN.isEmpty || vN.isEmpty then st
        else
          let inter := (sinter uN vN).length
          let uni := (sunion uN vN).length
          let similarity := if uni > 0 then (inter : ℚ) / uni else 0
          if similarity > 3/10 then
            let s := RelationTensor.postInit
              { (RelationTensor.defaults now ("HW_dream_" ++ u ++ "_" ++ v)) with
                source := u, target := v, type := "Λ",
                meaning := "Сновидение: общие соседи (" ++ toString inter ++ ")",
                certainty := similarity, tension := 1/10 } now
            -- `suggestion.ethical_status = "dreaming"` is assigned after construction
            { st with suggestions := st.suggestions ++ [{ s with ethical_status := "dreaming" }] }
          else st

/-- `dreaming_cycle(max_suggestions=10)`: returns the suggestions and the
graph with its `last_dreaming` stamp (the early return for fewer than three
nodes skips the stamp). -/
def dreaming_cycle (g : TensorSemanticGraph) (maxS : Nat) (now : ℚ) :
    List RelationTensor × TensorSemanticGraph :=
  if g.nodes.length < 3 then ([], g)
  else
    let st := g.dreaming_queue.foldl (dreamStep g maxS now)
      { processed := [], suggestions := [] }
    (st.suggestions, { g with last_dreaming := some now })

/-- `accept_dream(relation)` on the graph. -/
def accept_dream (g : TensorSemanticGraph) (relation : RelationTensor) (now : ℚ) :
    AddResult :=
  let relation := { relation with
    ethical_status := "active",
    meaning := pyReplace relation.meaning "Сновидение:" "Принятая гипотеза:" }
  add_tensor g relation "dream_accepted" true now

/-- `load_from_yaml`: the file is modelled by its parsed content — node
attribute maps plus the serialized edge records (`RelationTensor.from_dict`
round-trips the full field set, so a document edge is carried directly as a
record). -/
structure YamlDoc where
  nodes : List (String × NodeAttrs) := []
  edges : List RelationTensor := []
deriving DecidableEq

def load_from_yaml (g : TensorSemanticGraph) (doc : YamlDoc) (now : ℚ) :
    TensorSemanticGraph :=
  -- `self.graph.clear()`: removes all nodes and edges of the networkx graph
  -- (the registries, conflict zones, queue and stats live on the wrapper
  -- object and are untouched)
  let g := { g with nodes := [], edges := [] }
  -- nodes are re-added directly on the underlying graph, without the
  -- `add_node` stamping
  let g := doc.nodes.foldl (fun g p => { g with nodes := alSet g.nodes p.1 p.2 }) g
  doc.edges.foldl (fun g rt => (add_tensor g rt "restored_from_yaml" true now).graph) g

end TensorSemanticGraph

/-!
## `DreamingEngine` (`semantic_db/phi_layer/dreaming.py`)

`generate_suggestions` runs three strategies over a shared
(suggestions, processed-pairs) state.  The Python `break` cascades exit all
loops as soon as the cap is reached; since only appends change the count and
every step is capacity-guarded, folding the guarded steps over the full
candidate sequences computes the same suggestion list.
-/

namespace DreamingEngine

open TensorSemanticGraph

/-- Pairs `(l[i], l[j])` for `i < j`, in loop order. -/
def orderedPairs : List String → List (String × String)
  | [] => []
  | x :: xs => xs.map (fun y => (x, y)) ++ orderedPairs xs

/-- `_calculate_structural_hole(broker, node_a, node_b)`: the two node
arguments are unused by the body.  No exception can occur in the model, so the
`except: return 0.0` branch is unreachable. -/
def calcStructuralHole (g : TensorSemanticGraph) (broker : String) : ℚ :=
  if degree g broker < 2 then 0
  else
    let neighbors := successors g broker
    let pairs := orderedPairs neighbors
    let total := pairs.length
    let connected := (pairs.filter fun p => hasEdge g p.1 p.2 || hasEdge g p.2 p.1).length
    let constraint := if total = 0 then (0 : ℚ) else (connected : ℚ) / total
    1 - constraint

/-- `_jaccard_similarity(node_a, node_b)`. -/
def jaccardSimilarity (g : TensorSemanticGraph) (a b : String) : ℚ :=
  let na := sunion (successors g a) (predecessors g a)
  let nb := sunion (successors g b) (predecessors g b)
  if na.isEmpty && nb.isEmpty then 0
  else
    let inter := (sinter na nb).length
    let uni := (sunion na nb).length
    if uni > 0 then (inter : ℚ) / uni else 0

/-- `_find_incomplete_paths(max_length=4)` (the parameter is unused by the
body).  Note: the source reads `graph[start][mid].get('tensor')`, which looks
the string `'tensor'` up among the *edge keys* of the pair and therefore never
finds an edge record; the model keeps that lookup verbatim. -/
def findIncompletePaths (g : TensorSemanticGraph) : List (String × String × ℚ) :=
  (nodeNames g).flatMap fun start =>
    (successors g start).flatMap fun mid =>
      (successors g mid).filterMap fun e =>
        if start ≠ e ∧ hasEdge g start e = false then
          let cert1 := match (edgesBetween g start mid).find? (fun ed => ed.key == "tensor") with
            | some ed => ed.tensor.certainty
            | none => 7/10
          let cert2 := match (edgesBetween g mid e).find? (fun ed => ed.key == "tensor") with
            | some ed => ed.tensor.certainty
            | none => 7/10
          let confidence := (cert1 + cert2) / 2
          if confidence > 1/2 then some (start, e, confidence) else none
        else none

/-- A hypothetical record as the engine constructs it.  The constructor is
called with `ethical_status="dreaming"`, but `__post_init__` immediately
recomputes the status (tension ≤ 0.8, zero age), so the built record comes out
`"active"`. -/
def mkSuggestion (now : ℚ) (src tgt meaning : String) (cert ten : ℚ) : RelationTensor :=
  RelationTensor.postInit
    { (RelationTensor.defaults now ("HW_sugg_" ++ src ++ "_" ++ tgt)) with
      source := src, target := tgt, type := "Λ", meaning := meaning,
      certainty := cert, tension := ten, ethical_status := "dreaming" } now

/-- One iteration of strategy 1 (structural holes) for a neighbour pair of
`broker`. -/
def strat1Step (g : TensorSemanticGraph) (maxS : Nat) (now : ℚ) (broker : String)
    (st : DreamState) (p : String × String) : DreamState :=
  if st.suggestions.length ≥ maxS then st
  else if (p.1, p.2) ∈ st.processed ∨ (p.2, p.1) ∈ st.processed then st
  else if hasEdge g p.1 p.2 || hasEdge g p.2 p.1 then st
  else
    let significance := calcStructuralHole g broker
    if significance > 2/5 then
      { suggestions := st.suggestions ++
          [mkSuggestion now p.1 p.2 ("Сновидение: структурная дыра через " ++ broker)
            significance (1/10)],
        processed := st.processed ++ [(p.1, p.2)] }
    else st

/-- One iteration of strategy 2 (neighbour similarity) for a node pair.  Only
the forward direction `(a, b)` is checked against existing edges. -/
def strat2Step (g : TensorSemanticGraph) (maxS : Nat) (now : ℚ)
    (st : DreamState) (p : String × String) : DreamState :=
  if st.suggestions.length ≥ maxS then st
  else if (p.1, p.2) ∈ st.processed ∨ hasEdge g p.1 p.2 then st
  else
    let similarity := jaccardSimilarity g p.1 p.2
    if similarity > 7/20 then
      { suggestions := st.suggestions ++
          [mkSuggestion now p.1 p.2 "Сновидение: сходство соседей (J=…)" similarity (1/20)],
        processed := st.processed ++ [(p.1, p.2)] }
    else st

/-- One iteration of strategy 3 (path completion) for an incomplete-path
candidate. -/
def strat3Step (maxS : Nat) (now : ℚ) (st : DreamState)
    (c : String × String × ℚ) : DreamState :=
  if st.suggestions.length ≥ maxS then st
  else if (c.1, c.2.1) ∈ st.processed then st
  else
    { suggestions := st.suggestions ++
        [mkSuggestion now c.1 c.2.1 "Сновидение: завершение пути через промежуточный узел"
          c.2.2 (1/20)],
      processed := st.processed ++ [(c.1, c.2.1)] }

/-- `generate_suggestions(max_suggestions=10)`. -/
def generate_suggestions (g : TensorSemanticGraph) (maxS : Nat) (now : ℚ) :
    List RelationTensor :=
  let st : DreamState := { processed := [], suggestions := [] }
  -- strategy 1: structural holes
  let st := (nodeNames g).foldl
    (fun st broker =>
      let neighbors := successors g broker
      if neighbors.length < 2 then st
      else (orderedPairs neighbors).foldl (strat1Step g maxS now broker) st)
    st
  -- strategy 2: neighbour similarity
  let st := if st.suggestions.length < maxS then
      (orderedPairs (nodeNames g)).foldl (strat2Step g maxS now) st
    else st
  -- strategy 3: incomplete paths
  let st := if st.suggestions.length < maxS then
      (findIncompletePaths g).foldl (strat3Step maxS now) st
    else st
  st.suggestions.take maxS

/-- The record preparation `accept_suggestion` performs before inserting. -/
def acceptPrep (t : RelationTensor) : RelationTensor :=
  { t with ethical_status := "active",
           meaning := pyReplace t.meaning "Сновидение:" "Принятая гипотеза:" }

/-- `accept_suggestion(tensor, context_id="dream_accepted")`: `none` models
the `ValueError` raised for records not marked `"dreaming"`. -/
def accept_suggestion (g : TensorSemanticGraph) (t : RelationTensor)
    (context_id : String) (now : ℚ) : Option AddResult :=
  if t.ethical_status ≠ "dreaming" then none
  else some (add_tensor g (acceptPrep t) context_id true now)

end DreamingEngine

/-!
## `CoherenceEngine.get_coherence_trend` (`semantic_db/core/coherence.py`)

The history is the engine's list of `(timestamp, coherence)` pairs; time is
measured in hours here, so `timedelta(hours=window_hours)` becomes the
rational `window_hours`.
-/

structure TrendResult where
  trend : String
  change : ℚ
  data_points : Nat
deriving DecidableEq

def get_coherence_trend (history : List (ℚ × ℚ)) (window_hours : ℚ) (now : ℚ) :
    TrendResult :=
  if history.isEmpty then { trend := "stable", change := 0, data_points := 0 }
  else
    let cutoff := now - window_hours
    let recent := history.filter fun p => decide (p.1 ≥ cutoff)
    if recent.length < 2 then
      { trend := "insufficient_data", change := 0, data_points := recent.length }
    else
      let first := ((recent.head?).getD (0, 0)).2
      let lastPt := ((recent.getLast?).getD (0, 0)).2
      let change := lastPt - first
      let trend := if change > 1/20 then "improving"
        else if change < -(1/20) then "degrading"
        else "stable"
      { trend := trend, change := change, data_points := recent.length }

/-!
## `RQLParser` (`semantic_db/phi_layer/rql_parser.py`)

The parser's parameter dict mixes value types (raw token strings, the flag
`True` for a trailing bare `:key`, and `int`/`float` after conversion); the
model carries them in `PVal`.  `ValueError` is modelled by `none`.
-/

inductive PVal
  | s (v : String)
  | b (v : Bool)
  | i (v : Int)
  | q (v : ℚ)
deriving DecidableEq

structure RQLQuery where
  query_type : String
  intention : String := ""
  context : String := ""
  source : Option String := none
  target : Option String := none
  entity : Option String := none
  max_length : Int := 3
  min_coherence : ℚ := 1/2
  blind_spots : List String := []
  phi_meta : List String := []
deriving DecidableEq

namespace RQLParser

/-- The single-quote character (written via its code point to keep the source
free of quote-heavy literals). -/
def squote : Char := Char.ofNat 39

/-- State of `_tokenize`'s character loop. -/
structure TokState where
  tokens : List String
  current : String
  in_quotes : Bool
  quote_char : Char
deriving DecidableEq

def tokStep (st : TokState) (c : Char) : TokState :=
  if (c = '"' ∨ c = squote) ∧ ¬st.in_quotes then
    { st with in_quotes := true, quote_char := c, current := st.current.push c }
  else if c = st.quote_char ∧ st.in_quotes then
    { st with in_quotes := false, tokens := st.tokens ++ [st.current.push c], current := "" }
  else if c = ' ' ∧ ¬st.in_quotes then
    if st.current ≠ "" then { st with tokens := st.tokens ++ [st.current], current := "" }
    else st
  else { st with current := st.current.push c }

/-- `_tokenize(s)`. -/
def tokenize (s : String) : List String :=
  let st := s.data.foldl tokStep
    { tokens := [], current := "", in_quotes := false, quote_char := ' ' }
  if st.current ≠ "" then st.tokens ++ [st.current] else st.tokens

/-- Strip a matching pair of surrounding quotes (Python checks `startswith`
and `endswith` for each quote character in turn). -/
def stripQuotes (v : String) : String :=
  if pyStartsWith v "\"" ∧ pyEndsWith v "\"" then pyDropRight (pyDrop v 1) 1
  else if pyStartsWith v (String.mk [squote]) ∧ pyEndsWith v (String.mk [squote]) then
    pyDropRight (pyDrop v 1) 1
  else v

/-- The `(:key value)` parameter scan over `tokens[1:]`; a trailing `:key`
with no value stores the flag `True`.  Repeated keys overwrite (dict
semantics). -/
def paramLoop (toks : List String) (acc : List (String × PVal)) :
    List (String × PVal) :=
  match toks with
  | [] => acc
  | tok :: rest =>
    if pyStartsWith tok ":" then
      let key := pyDrop tok 1
      match rest with
      | [] => alSet acc key (PVal.b true)
      | value :: rest2 => paramLoop rest2 (alSet acc key (PVal.s (stripQuotes value)))
    else paramLoop rest acc

/-- Python `int(...)` on the parameter values the scan can produce (`int` of
a non-numeric string raises). -/
def pvalToInt : PVal → Option Int
  | PVal.s v => pyToInt v
  | PVal.b v => some (if v then 1 else 0)
  | PVal.i v => some v
  | PVal.q _ => none

/-- Python `float(...)` on a decimal token (the source never feeds it
anything but decimal literals). -/
def parseDec (s : String) : Option ℚ :=
  let s := pyStrip s
  let (sgn, s) : ℚ × String := if pyStartsWith s "-" then (-1, pyDrop s 1) else (1, s)
  match pySplit s "." with
  | [a] => (digitsToNat a.data).map fun n => sgn * n
  | [a, b] =>
    match digitsToNat a.data, digitsToNat b.data with
    | some na, some nb => some (sgn * ((na : ℚ) + (nb : ℚ) / (10 ^ b.length)))
    | _, _ => none
  | _ => none

def pvalToRat : PVal → Option ℚ
  | PVal.s v => parseDec v
  | PVal.b v => some (if v then 1 else 0)
  | PVal.i v => some (v : ℚ)
  | PVal.q v => some v

/-- The in-place type conversions `parse` applies to `max_length`, `depth`
and `min_coherence` (a failed conversion raises, i.e. `none`). -/
def convertParams (ps : List (String × PVal)) : Option (List (String × PVal)) := do
  let ps ← match alGet ps "max_length" with
    | none => some ps
    | some v => (pvalToInt v).map fun n => alSet ps "max_length" (PVal.i n)
  let ps ← match alGet ps "depth" with
    | none => some ps
    | some v => (pvalToInt v).map fun n => alSet ps "max_length" (PVal.i n)
  match alGet ps "min_coherence" with
  | none => some ps
  | some v => (pvalToRat v).map fun q => alSet ps "min_coherence" (PVal.q q)

/-- String-valued parameter lookup.  A parameter stored as the bare flag
`True` is not a string; no claim exercises that corner and the model maps it
to `none`. -/
def getStr (ps : List (String × PVal)) (k : String) : Option String :=
  match alGet ps k with
  | some (PVal.s v) => some v
  | _ => none

def getStrD (ps : List (String × PVal)) (k : String) (d : String) : String :=
  (getStr ps k).getD d

def getIntD (ps : List (String × PVal)) (k : String) (d : Int) : Int :=
  match alGet ps k with
  | some (PVal.i n) => n
  | _ => d

def getRatD (ps : List (String × PVal)) (k : String) (d : ℚ) : ℚ :=
  match alGet ps k with
  | some (PVal.q q) => q
  | _ => d

/-- A comma-separated list parameter (blind spots / `phi_meta`): split when
nonempty, else empty. -/
def splitParam (ps : List (String × PVal)) (k : String) : List String :=
  let v := getStrD ps k ""
  if v ≠ "" then pySplit v "," else []

/-- `parse(query_str)`. -/
def parse (query_str : String) : Option RQLQuery :=
  let qs := pyStrip query_str
  if ¬(pyStartsWith qs "(" ∧ pyEndsWith qs ")") then none
  else
    let inner := pyStrip (pyDropRight (pyDrop qs 1) 1)
    match tokenize inner with
    | [] => none
    | query_type :: rest => do
      let params ← convertParams (paramLoop rest [])
      if query_type = "Φ" then
        some { query_type := "phi",
               intention := getStrD params "намерение" (getStrD params "intention" ""),
               context := getStrD params "контекст" (getStrD params "context" ""),
               blind_spots := splitParam params "слепые_пятна",
               phi_meta := splitParam params "phi_meta" }
      else if query_type = "QUERY" then
        some { query_type := "path",
               source := getStr params "from",
               target := getStr params "to",
               max_length := getIntD params "max_length" 3,
               min_coherence := getRatD params "min_coherence" (1/2) }
      else if query_type = "EXPLORE" then
        -- the source reads the *unconverted* `depth` token here; the typed
        -- model carries its integer value (no claim exercises this branch)
        some { query_type := "explore",
               entity := getStr params "entity",
               max_length := (match alGet params "depth" with
                 | some v => (pvalToInt v).getD 2
                 | none => 2) }
      else if query_type = "CONTEXT" then
        some { query_type := "context",
               context := getStrD params "keyword" (getStrD params "контекст" "") }
      else none

/-- One hop of a semantic path as `_execute_path_query` consumes it
(`edge['subject']`, `edge['object']`, `edge['certainty']`). -/
structure PathEdge where
  subject : String
  object : String
  certainty : ℚ
deriving DecidableEq

/-- Modelled from the spec: `TensorSemanticGraph.find_paths` is called by
`RQLParser._execute_path_query` but does not exist anywhere in the source;
per §4.5 `QUERY` "enumerates simple paths from `source` to `target` up to
`max_length` hops".  Depth-first enumeration in edge-insertion order; each
parallel edge contributes its own hop carrying the stored record's
confidence. -/
def findPathsAux (g : TensorSemanticGraph) (current target : String)
    (visited : List String) : Nat → List (List PathEdge)
  | 0 => []
  | n + 1 =>
    (g.edges.filter fun e => e.source == current).flatMap fun e =>
      if e.target = target then
        [[{ subject := e.source, object := e.target, certainty := e.tensor.certainty }]]
      else if e.target ∈ visited then []
      else
        (findPathsAux g e.target target (visited ++ [e.target]) n).map
          (fun p => { subject := e.source, object := e.target,
                      certainty := e.tensor.certainty } :: p)

/-- Modelled from the spec: see `findPathsAux`. -/
def find_paths (g : TensorSemanticGraph) (start target : String) (max_length : Nat) :
    List (List PathEdge) :=
  findPathsAux g start target [start] max_length

/-- One entry of the `paths` result list: the node display list, the hop
list and the mean confidence. -/
structure FoundPath where
  path : List String
  edges : List PathEdge
  avg_certainty : ℚ
deriving DecidableEq

structure PathResult where
  source : String
  target : String
  paths_found : Nat
  paths : List FoundPath
  coherence_threshold : ℚ
deriving DecidableEq

/-- `_execute_path_query(query)`: `none` models the `ValueError` for a
missing (or empty, hence falsy) `from`/`to`. -/
def execute_path_query (g : TensorSemanticGraph) (q : RQLQuery) : Option PathResult :=
  match q.source, q.target with
  | some s, some t =>
    if s = "" ∨ t = "" then none
    else
      let paths := find_paths g s t q.max_length.toNat
      let filtered := paths.filterMap fun path =>
        let avg := if path.isEmpty then 0 else (path.map PathEdge.certainty).sum / path.length
        if avg ≥ q.min_coherence then
          some { path := (path.map PathEdge.subject) ++
                   (match path.getLast? with | some e => [e.object] | none => []),
                 edges := path, avg_certainty := avg }
        else none
      some { source := s, target := t, paths_found := filtered.length,
             paths := filtered.take 5, coherence_threshold := q.min_coherence }
  | _, _ => none

end RQLParser

/-!
## Concrete states used by the counterexamples and witnesses

All are reachable through the public construction path: records built by the
dataclass constructor (`defaults` + `postInit`) and inserted with
`add_tensor`.
-/

open TensorSemanticGraph in
/-- A record as the dataclass constructor builds it from source, target,
meaning and confidence. -/
def mkRel (id src tgt meaning : String) (cert : ℚ) : RelationTensor :=
  RelationTensor.postInit
    { (RelationTensor.defaults 0 id) with
      source := src, target := tgt, meaning := meaning, certainty := cert } 0

open TensorSemanticGraph in
def addR (g : TensorSemanticGraph) (r : RelationTensor) : TensorSemanticGraph :=
  (add_tensor g r "global" true 0).graph

/-- Five-node graph with edges a→c, a→d, b→c, b→d and b→a. -/
def gRev : TensorSemanticGraph :=
  addR (addR (addR (addR (addR {} (mkRel "E1" "a" "c" "m1" (7/10)))
    (mkRel "E2" "a" "d" "m2" (7/10))) (mkRel "E3" "b" "c" "m3" (7/10)))
    (mkRel "E4" "b" "d" "m4" (7/10))) (mkRel "E5" "b" "a" "m5" (7/10))

/-- Five-node graph with edges a→x, a→y, b→x, b→z; the Jaccard similarity of
a and b is exactly 1/3. -/
def gThird : TensorSemanticGraph :=
  addR (addR (addR (addR {} (mkRel "F1" "a" "x" "m1" (7/10)))
    (mkRel "F2" "a" "y" "m2" (7/10))) (mkRel "F3" "b" "x" "m3" (7/10)))
    (mkRel "F4" "b" "z" "m4" (7/10))

/-- Three-node graph with edges A→B (meaning "x") and B→C (meaning "y"),
both inserted with confidence 0.9. -/
def gPath : TensorSemanticGraph :=
  addR (addR {} (mkRel "E_AB" "A" "B" "x" (9/10))) (mkRel "E_BC" "B" "C" "y" (9/10))

/-- The record of §8's scenario query, as `parse` produces it. -/
def qAC : RQLQuery :=
  { query_type := "path", source := some "A", target := some "C",
    max_length := 3, min_coherence := 1/2 }

/-- Single-edge graph (used to exhibit what survives an import). -/
def gOne : TensorSemanticGraph := addR {} (mkRel "E1" "u" "v" "m" (7/10))

/-- A record whose context map was seeded by construction (`genesis` only). -/
def tMergeA : RelationTensor :=
  RelationTensor.postInit
    { (RelationTensor.defaults 0 "TA") with
      source := "s", target := "t", meaning := "m1", certainty := 2/5 } 0

/-- A record carrying two contexts with distinct confidences (the dataclass
accepts an explicit context map). -/
def tMergeB : RelationTensor :=
  RelationTensor.postInit
    { (RelationTensor.defaults 0 "TB") with
      source := "s", target := "t", meaning := "m2", certainty := 3/5,
      certainty_by_context := [("genesis", 2/5), ("x", 4/5)] } 0

/-- A record constructed with an explicit context map that does not contain
`genesis`. -/
def tGenA : RelationTensor :=
  RelationTensor.postInit
    { (RelationTensor.defaults 0 "GA") with
      source := "s", target := "t", meaning := "ma", certainty := 1/2,
      certainty_by_context := [("a", 1/2)] } 0

def tGenB : RelationTensor :=
  RelationTensor.postInit
    { (RelationTensor.defaults 0 "GB") with
      source := "s", target := "t", meaning := "mb", certainty := 1/2,
      certainty_by_context := [("b", 1/2)] } 0

/-- A hypothesis record exactly as `dreaming_cycle` leaves one: dataclass
construction followed by the `ethical_status = "dreaming"` assignment.  Its
`suggested` flag is never touched and stays `False`. -/
def tDream : RelationTensor :=
  { mkRel "D1" "u" "v" "Сновидение: общие соседи (1)" (1/2) with
    ethical_status := "dreaming" }

/-- A record whose `suggested` flag is `True` but whose status is the
post-construction `"active"`. -/
def tFlagged : RelationTensor :=
  { mkRel "D2" "u" "v" "m" (1/2) with suggested := true }

/-- Coherence history with two points and a rise of 1/10. -/
def histTwo : List (ℚ × ℚ) := [(0, 1/2), (1, 3/5)]

/-!
## Specification predicates
-/

/-- The value range every confidence/tension/coherence figure must stay in. -/
def InRange (q : ℚ) : Prop := 0 ≤ q ∧ q ≤ 1

/-- The spec's derivation invariant for the global confidence: recomputed as
the mean of the per-context confidences (meaningful once the context map is
nonempty). -/
def InvCert (t : RelationTensor) : Prop :=
  t.certainty_by_context ≠ [] → t.certainty = ctxMean t.certainty_by_context

/-- The spec's derivation invariant for the global tension: recomputed as the
maximum of the per-context tensions (meaningful once that map is nonempty). -/
def InvTen (t : RelationTensor) : Prop :=
  t.tension_by_context ≠ [] →
    t.tension = qmax (t.tension_by_context.map Prod.snd)

/-- All scalar and per-context values of a record lie in [0,1]. -/
def WF (t : RelationTensor) : Prop :=
  InRange t.certainty ∧ InRange t.tension ∧ InRange t.coherence_contribution ∧
    (∀ p ∈ t.certainty_by_context, InRange p.2) ∧
    (∀ p ∈ t.tension_by_context, InRange p.2)

/-!
## Helper lemmas: association lists, sets, folds
-/

section AssocLemmas

variable {α : Type}

lemma alGet_alSet_self (m : List (String × α)) (k : String) (v : α) :
    alGet (alSet m k v) k = some v := by
  induction m with
  | nil => simp [alSet, alGet]
  | cons p rest ih =>
    obtain ⟨k', v'⟩ := p
    by_cases h : k' = k
    · simp [alSet, alGet, h]
    · simp [alSet, alGet, h, ih]

lemma alGet_alSet_ne (m : List (String × α)) {k k' : String} (v : α) (h : k' ≠ k) :
    alGet (alSet m k v) k' = alGet m k' := by
  have h' : k ≠ k' := Ne.symm h
  induction m with
  | nil => simp [alSet, alGet, h']
  | cons p rest ih =>
    obtain ⟨k₀, v₀⟩ := p
    by_cases h0 : k₀ = k
    · subst h0
      simp [alSet, alGet, h']
    · simp only [alSet, if_neg h0, alGet]
      by_cases h1 : k₀ = k'
      · simp [h1]
      · simp [h1, ih]

lemma alHas_iff_mem_alKeys (m : List (String × α)) (k : String) :
    alHas m k = true ↔ k ∈ alKeys m := by
  induction m with
  | nil => simp [alHas, alGet, alKeys]
  | cons p rest ih =>
    obtain ⟨k₀, v₀⟩ := p
    by_cases h : k₀ = k
    · simp [alHas, alGet, alKeys, h]
    · simpa [alHas, alGet, alKeys, h, Ne.symm h] using ih

lemma mem_alKeys_alSet (m : List (String × α)) (k k' : String) (v : α) :
    k' ∈ alKeys (alSet m k v) ↔ k' = k ∨ k' ∈ alKeys m := by
  induction m with
  | nil => simp [alSet, alKeys]
  | cons p rest ih =>
    obtain ⟨k₀, v₀⟩ := p
    by_cases h : k₀ = k
    · subst h
      rw [show alSet ((k₀, v₀) :: rest) k₀ v = (k₀, v) :: rest from by simp [alSet]]
      simp only [alKeys, List.map_cons, List.mem_cons]
      tauto
    · rw [show alSet ((k₀, v₀) :: rest) k v = (k₀, v₀) :: alSet rest k v from by
        simp [alSet, h]]
      simp only [alKeys, List.map_cons, List.mem_cons]
      simp only [alKeys] at ih
      tauto

lemma alKeys_alUpd (m : List (String × α)) (k : String) (v : α) :
    alKeys (alUpd m k v) = alKeys m := by
  induction m with
  | nil => simp [alUpd]
  | cons p rest ih =>
    obtain ⟨k₀, v₀⟩ := p
    by_cases h : k₀ = k
    · subst h
      simp [alUpd, alKeys]
    · simp only [alUpd, if_neg h, alKeys, List.map_cons, List.cons.injEq, true_and]
      simp only [alKeys] at ih
      exact ih

lemma alHas_alUpd (m : List (String × α)) (k k' : String) (v : α) :
    alHas (alUpd m k v) k' = alHas m k' := by
  rw [Bool.eq_iff_iff, alHas_iff_mem_alKeys, alHas_iff_mem_alKeys, alKeys_alUpd]

lemma alHas_alSet (m : List (String × α)) (k k' : String) (v : α) :
    alHas (alSet m k v) k' = true ↔ k' = k ∨ alHas m k' = true := by
  rw [alHas_iff_mem_alKeys, alHas_iff_mem_alKeys, mem_alKeys_alSet]

lemma alGet_mem {m : List (String × α)} {k : String} {v : α}
    (h : alGet m k = some v) : (k, v) ∈ m := by
  induction m with
  | nil => simp [alGet] at h
  | cons p rest ih =>
    obtain ⟨k₀, v₀⟩ := p
    by_cases h0 : k₀ = k
    · subst h0
      rw [show alGet ((k₀, v₀) :: rest) k₀ = some v₀ from by simp [alGet]] at h
      injection h with h
      subst h
      exact List.mem_cons_self _ _
    · rw [show alGet ((k₀, v₀) :: rest) k = alGet rest k from by simp [alGet, h0]] at h
      exact List.mem_cons_of_mem _ (ih h)

lemma mem_alSet {m : List (String × α)} {k : String} {v : α} {p : String × α}
    (h : p ∈ alSet m k v) : p = (k, v) ∨ p ∈ m := by
  induction m with
  | nil => simpa [alSet] using h
  | cons q rest ih =>
    obtain ⟨k₀, v₀⟩ := q
    by_cases h0 : k₀ = k
    · subst h0
      rw [show alSet ((k₀, v₀) :: rest) k₀ v = (k₀, v) :: rest from by simp [alSet]] at h
      rcases List.mem_cons.mp h with h1 | h1
      · exact Or.inl h1
      · exact Or.inr (List.mem_cons_of_mem _ h1)
    · rw [show alSet ((k₀, v₀) :: rest) k v = (k₀, v₀) :: alSet rest k v from by
        simp [alSet, h0]] at h
      rcases List.mem_cons.mp h with h1 | h1
      · exact Or.inr (by simp [h1])
      · rcases ih h1 with h2 | h2
        · exact Or.inl h2
        · exact Or.inr (List.mem_cons_of_mem _ h2)

lemma alSet_of_not_mem {m : List (String × α)} {k : String} (v : α)
    (h : k ∉ alKeys m) : alSet m k v = m ++ [(k, v)] := by
  induction m with
  | nil => simp [alSet]
  | cons p rest ih =>
    obtain ⟨k₀, v₀⟩ := p
    simp only [alKeys, List.map_cons, List.mem_cons] at h
    push_neg at h
    have h1 : ¬k₀ = k := fun hh => h.1 (hh ▸ rfl)
    simp only [alSet, if_neg h1, List.cons_append, List.cons.injEq, true_and]
    exact ih (by simpa [alKeys] using h.2)

lemma alGet_split {m : List (String × α)} {k : String} {v : α}
    (h : alGet m k = some v) :
    ∃ pre post, m = pre ++ (k, v) :: post ∧ k ∉ alKeys pre := by
  induction m with
  | nil => simp [alGet] at h
  | cons p rest ih =>
    obtain ⟨k₀, v₀⟩ := p
    by_cases h0 : k₀ = k
    · subst h0
      rw [show alGet ((k₀, v₀) :: rest) k₀ = some v₀ from by simp [alGet]] at h
      injection h with h
      subst h
      exact ⟨[], rest, by simp, by simp [alKeys]⟩
    · rw [show alGet ((k₀, v₀) :: rest) k = alGet rest k from by simp [alGet, h0]] at h
      obtain ⟨pre, post, hsplit, hpre⟩ := ih h
      refine ⟨(k₀, v₀) :: pre, post, by simp [hsplit], ?_⟩
      simp only [alKeys, List.map_cons, List.mem_cons]
      push_neg
      exact ⟨fun hh => h0 hh.symm, by simpa [alKeys] using hpre⟩

end AssocLemmas

section SetLemmas

lemma mem_sinsert (s : List String) (x y : String) :
    y ∈ sinsert s x ↔ y = x ∨ y ∈ s := by
  by_cases h : x ∈ s
  · simp only [sinsert, if_pos h]
    constructor
    · tauto
    · rintro (rfl | hy) <;> tauto
  · simp only [sinsert, if_neg h, List.mem_append, List.mem_singleton]
    tauto

lemma mem_sunion (a b : List String) (y : String) :
    y ∈ sunion a b ↔ y ∈ a ∨ y ∈ b := by
  induction b generalizing a with
  | nil => simp [sunion]
  | cons x rest ih =>
    show y ∈ sunion (sinsert a x) rest ↔ _
    rw [ih, mem_sinsert]
    simp only [List.mem_cons]
    tauto

lemma mem_heappush (q : List (ℚ × String × String)) (x y : ℚ × String × String) :
    y ∈ TensorSemanticGraph.heappush q x ↔ y = x ∨ y ∈ q := by
  induction q with
  | nil => simp [TensorSemanticGraph.heappush]
  | cons z rest ih =>
    by_cases h : TensorSemanticGraph.queueLt x z
    · rw [show TensorSemanticGraph.heappush (z :: rest) x = x :: z :: rest from by
        simp [TensorSemanticGraph.heappush, h]]
      simp only [List.mem_cons]
    · rw [show TensorSemanticGraph.heappush (z :: rest) x =
          z :: TensorSemanticGraph.heappush rest x from by
        simp [TensorSemanticGraph.heappush, h]]
      simp only [List.mem_cons, ih]
      tauto

lemma foldl_induction {β γ : Type} (f : γ → β → γ) (l : List β) (init : γ)
    (P : γ → Prop) (h0 : P init)
    (hs : ∀ acc b, b ∈ l → P acc → P (f acc b)) : P (l.foldl f init) := by
  induction l generalizing init with
  | nil => simpa using h0
  | cons b rest ih =>
    exact ih (f init b) (hs init b (by simp) h0)
      (fun acc x hx hacc => hs acc x (by simp [hx]) hacc)

end SetLemmas

section TensorLemmas

open RelationTensor

lemma recalcMetrics_source (t : RelationTensor) (now : ℚ) :
    (recalcMetrics t now).source = t.source := by
  simp only [recalcMetrics]; split_ifs <;> rfl

lemma recalcMetrics_target (t : RelationTensor) (now : ℚ) :
    (recalcMetrics t now).target = t.target := by
  simp only [recalcMetrics]; split_ifs <;> rfl

lemma recalcMetrics_type (t : RelationTensor) (now : ℚ) :
    (recalcMetrics t now).type = t.type := by
  simp only [recalcMetrics]; split_ifs <;> rfl

lemma recalcMetrics_meaning (t : RelationTensor) (now : ℚ) :
    (recalcMetrics t now).meaning = t.meaning := by
  simp only [recalcMetrics]; split_ifs <;> rfl

lemma recalcMetrics_hw (t : RelationTensor) (now : ℚ) :
    (recalcMetrics t now).habeas_weight_id = t.habeas_weight_id := by
  simp only [recalcMetrics]; split_ifs <;> rfl

lemma recalcMetrics_suggested (t : RelationTensor) (now : ℚ) :
    (recalcMetrics t now).suggested = t.suggested := by
  simp only [recalcMetrics]; split_ifs <;> rfl

lemma recalcMetrics_parents (t : RelationTensor) (now : ℚ) :
    (recalcMetrics t now).parent_tensors = t.parent_tensors := by
  simp only [recalcMetrics]; split_ifs <;> rfl

lemma recalcMetrics_activation_count (t : RelationTensor) (now : ℚ) :
    (recalcMetrics t now).activation_count = t.activation_count := by
  simp only [recalcMetrics]; split_ifs <;> rfl

lemma recalcMetrics_cbc (t : RelationTensor) (now : ℚ) :
    (recalcMetrics t now).certainty_by_context = t.certainty_by_context := by
  simp only [recalcMetrics]; split_ifs <;> rfl

lemma recalcMetrics_tbc (t : RelationTensor) (now : ℚ) :
    (recalcMetrics t now).tension_by_context = t.tension_by_context := by
  simp only [recalcMetrics]; split_ifs <;> rfl

lemma recalcMetrics_certainty_of_ne_nil (t : RelationTensor) (now : ℚ)
    (h : t.certainty_by_context ≠ []) :
    (recalcMetrics t now).certainty = ctxMean t.certainty_by_context := by
  have he : t.certainty_by_context.isEmpty = false := by
    cases hc : t.certainty_by_context with
    | nil => exact absurd hc h
    | cons a l => simp
  simp only [recalcMetrics, he, Bool.false_eq_true, if_false]
  split_ifs <;> rfl

lemma recalcMetrics_certainty_of_nil (t : RelationTensor) (now : ℚ)
    (h : t.certainty_by_context = []) :
    (recalcMetrics t now).certainty = t.certainty := by
  simp only [recalcMetrics, h]
  split_ifs <;> simp_all

lemma recalcMetrics_tension_of_ne_nil (t : RelationTensor) (now : ℚ)
    (h : t.tension_by_context ≠ []) :
    (recalcMetrics t now).tension = qmax (t.tension_by_context.map Prod.snd) := by
  have he : t.tension_by_context.isEmpty = false := by
    cases hc : t.tension_by_context with
    | nil => exact absurd hc h
    | cons a l => simp
  simp only [recalcMetrics, he, Bool.false_eq_true, if_false]
  split_ifs <;> simp_all

lemma recalcMetrics_tension_of_nil (t : RelationTensor) (now : ℚ)
    (h : t.tension_by_context = []) :
    (recalcMetrics t now).tension = t.tension := by
  simp only [recalcMetrics, h]
  split_ifs <;> simp_all

lemma recalcMetrics_invCert (t : RelationTensor) (now : ℚ) :
    InvCert (recalcMetrics t now) := by
  intro h
  rw [recalcMetrics_cbc] at h ⊢
  exact recalcMetrics_certainty_of_ne_nil t now h

lemma recalcMetrics_invTen (t : RelationTensor) (now : ℚ) :
    InvTen (recalcMetrics t now) := by
  intro h
  rw [recalcMetrics_tbc] at h ⊢
  exact recalcMetrics_tension_of_ne_nil t now h

lemma ctxMean_singleton (k : String) (v : ℚ) : ctxMean [(k, v)] = v := by
  simp [ctxMean]

/-- `postInit` structure: the seed step followed by `recalcMetrics`. -/
lemma postInit_eq (t : RelationTensor) (now : ℚ) :
    postInit t now = recalcMetrics
      (if t.certainty_by_context.isEmpty then
        { t with certainty_by_context := [("genesis", t.certainty)] }
      else t) now := by
  simp only [postInit]

lemma postInit_source (t : RelationTensor) (now : ℚ) :
    (postInit t now).source = t.source := by
  rw [postInit_eq, recalcMetrics_source]; split_ifs <;> rfl

lemma postInit_target (t : RelationTensor) (now : ℚ) :
    (postInit t now).target = t.target := by
  rw [postInit_eq, recalcMetrics_target]; split_ifs <;> rfl

lemma postInit_type (t : RelationTensor) (now : ℚ) :
    (postInit t now).type = t.type := by
  rw [postInit_eq, recalcMetrics_type]; split_ifs <;> rfl

lemma postInit_meaning (t : RelationTensor) (now : ℚ) :
    (postInit t now).meaning = t.meaning := by
  rw [postInit_eq, recalcMetrics_meaning]; split_ifs <;> rfl

lemma postInit_hw (t : RelationTensor) (now : ℚ) :
    (postInit t now).habeas_weight_id = t.habeas_weight_id := by
  rw [postInit_eq, recalcMetrics_hw]; split_ifs <;> rfl

lemma postInit_suggested (t : RelationTensor) (now : ℚ) :
    (postInit t now).suggested = t.suggested := by
  rw [postInit_eq, recalcMetrics_suggested]; split_ifs <;> rfl

lemma postInit_invCert (t : RelationTensor) (now : ℚ) : InvCert (postInit t now) := by
  rw [postInit_eq]; exact recalcMetrics_invCert _ _

lemma postInit_invTen (t : RelationTensor) (now : ℚ) : InvTen (postInit t now) := by
  rw [postInit_eq]; exact recalcMetrics_invTen _ _

lemma postInit_certainty_of_empty (t : RelationTensor) (now : ℚ)
    (h : t.certainty_by_context = []) : (postInit t now).certainty = t.certainty := by
  rw [postInit_eq]
  have he : t.certainty_by_context.isEmpty = true := by simp [h]
  rw [if_pos he, recalcMetrics_certainty_of_ne_nil _ _ (by simp)]
  exact ctxMean_singleton _ _

lemma postInit_tension_of_empty (t : RelationTensor) (now : ℚ)
    (h : t.tension_by_context = []) : (postInit t now).tension = t.tension := by
  rw [postInit_eq]
  split_ifs with hc
  · exact recalcMetrics_tension_of_nil _ _ (by simpa using h)
  · exact recalcMetrics_tension_of_nil _ _ h

lemma activate_activation_count (t : RelationTensor) (c : String) (now : ℚ) :
    (activate t c now).activation_count = t.activation_count + 1 := by
  simp only [activate]
  split_ifs <;> simp [recalcMetrics_activation_count]

lemma activate_source (t : RelationTensor) (c : String) (now : ℚ) :
    (activate t c now).source = t.source := by
  simp only [activate]
  split_ifs <;> simp [recalcMetrics_source]

lemma activate_target (t : RelationTensor) (c : String) (now : ℚ) :
    (activate t c now).target = t.target := by
  simp only [activate]
  split_ifs <;> simp [recalcMetrics_target]

lemma activate_type (t : RelationTensor) (c : String) (now : ℚ) :
    (activate t c now).type = t.type := by
  simp only [activate]
  split_ifs <;> simp [recalcMetrics_type]

lemma activate_meaning (t : RelationTensor) (c : String) (now : ℚ) :
    (activate t c now).meaning = t.meaning := by
  simp only [activate]
  split_ifs <;> simp [recalcMetrics_meaning]

lemma activate_hw (t : RelationTensor) (c : String) (now : ℚ) :
    (activate t c now).habeas_weight_id = t.habeas_weight_id := by
  simp only [activate]
  split_ifs <;> simp [recalcMetrics_hw]

lemma activate_suggested (t : RelationTensor) (c : String) (now : ℚ) :
    (activate t c now).suggested = t.suggested := by
  simp only [activate]
  split_ifs <;> simp [recalcMetrics_suggested]

lemma activate_cbc (t : RelationTensor) (c : String) (now : ℚ) :
    ∃ x, (activate t c now).certainty_by_context = alSet t.certainty_by_context c x := by
  simp only [activate]
  split_ifs <;> exact ⟨_, by rw [recalcMetrics_cbc]⟩

lemma activate_tbc (t : RelationTensor) (c : String) (now : ℚ) :
    (activate t c now).tension_by_context = t.tension_by_context := by
  simp only [activate]
  split_ifs <;> simp [recalcMetrics_tbc]

lemma activate_invCert (t : RelationTensor) (c : String) (now : ℚ) :
    InvCert (activate t c now) := by
  simp only [activate]
  split_ifs <;> exact recalcMetrics_invCert _ _

lemma activate_invTen (t : RelationTensor) (c : String) (now : ℚ) :
    InvTen (activate t c now) := by
  simp only [activate]
  split_ifs <;> exact recalcMetrics_invTen _ _

lemma update_from_context_eq (t : RelationTensor) (c : String) (nc nt now : ℚ) :
    update_from_context t c nc nt now =
      activate (recalcMetrics
        { t with
          certainty_by_context :=
            alSet t.certainty_by_context c ((alGetD t.certainty_by_context c nc + nc) / 2),
          tension_by_context :=
            alSet t.tension_by_context c (max (alGetD t.tension_by_context c 0) nt) } now)
        c now := by
  simp only [update_from_context]

lemma update_activation_count (t : RelationTensor) (c : String) (nc nt now : ℚ) :
    (update_from_context t c nc nt now).activation_count = t.activation_count + 1 := by
  rw [update_from_context_eq, activate_activation_count, recalcMetrics_activation_count]

lemma update_source (t : RelationTensor) (c : String) (nc nt now : ℚ) :
    (update_from_context t c nc nt now).source = t.source := by
  rw [update_from_context_eq, activate_source, recalcMetrics_source]

lemma update_target (t : RelationTensor) (c : String) (nc nt now : ℚ) :
    (update_from_context t c nc nt now).target = t.target := by
  rw [update_from_context_eq, activate_target, recalcMetrics_target]

lemma update_type (t : RelationTensor) (c : String) (nc nt now : ℚ) :
    (update_from_context t c nc nt now).type = t.type := by
  rw [update_from_context_eq, activate_type, recalcMetrics_type]

lemma update_meaning (t : RelationTensor) (c : String) (nc nt now : ℚ) :
    (update_from_context t c nc nt now).meaning = t.meaning := by
  rw [update_from_context_eq, activate_meaning, recalcMetrics_meaning]

lemma update_hw (t : RelationTensor) (c : String) (nc nt now : ℚ) :
    (update_from_context t c nc nt now).habeas_weight_id = t.habeas_weight_id := by
  rw [update_from_context_eq, activate_hw, recalcMetrics_hw]

lemma update_suggested (t : RelationTensor) (c : String) (nc nt now : ℚ) :
    (update_from_context t c nc nt now).suggested = t.suggested := by
  rw [update_from_context_eq, activate_suggested, recalcMetrics_suggested]

lemma update_alHas_self (t : RelationTensor) (c : String) (nc nt now : ℚ) :
    alHas (update_from_context t c nc nt now).certainty_by_context c = true := by
  rw [update_from_context_eq]
  obtain ⟨x, hx⟩ := activate_cbc (recalcMetrics _ now) c now
  rw [hx]
  exact (alHas_alSet _ _ _ _).mpr (Or.inl rfl)

lemma update_alHas_mono (t : RelationTensor) (c k : String) (nc nt now : ℚ)
    (h : alHas t.certainty_by_context k = true) :
    alHas (update_from_context t c nc nt now).certainty_by_context k = true := by
  rw [update_from_context_eq]
  obtain ⟨x, hx⟩ := activate_cbc (recalcMetrics _ now) c now
  rw [hx]
  refine (alHas_alSet _ _ _ _).mpr (Or.inr ?_)
  rw [recalcMetrics_cbc]
  show alHas (alSet _ _ _) k = true
  exact (alHas_alSet _ _ _ _).mpr (Or.inr h)

lemma update_invCert (t : RelationTensor) (c : String) (nc nt now : ℚ) :
    InvCert (update_from_context t c nc nt now) := by
  rw [update_from_context_eq]; exact activate_invCert _ _ _

lemma update_invTen (t : RelationTensor) (c : String) (nc nt now : ℚ) :
    InvTen (update_from_context t c nc nt now) := by
  rw [update_from_context_eq]; exact activate_invTen _ _ _

end TensorLemmas

section RangeLemmas

open RelationTensor

lemma InRange_zero : InRange 0 := ⟨le_refl 0, by norm_num⟩

lemma InRange_avg {a b : ℚ} (ha : InRange a) (hb : InRange b) : InRange ((a + b) / 2) := by
  obtain ⟨ha0, ha1⟩ := ha
  obtain ⟨hb0, hb1⟩ := hb
  constructor <;> [positivity; (rw [div_le_one (by norm_num)]; linarith)]

lemma InRange_max {a b : ℚ} (ha : InRange a) (hb : InRange b) : InRange (max a b) :=
  ⟨le_max_of_le_left ha.1, max_le ha.2 hb.2⟩

lemma InRange_coherence {c t : ℚ} (hc : InRange c) (ht : InRange t) :
    InRange (c * (1 - t)) := by
  obtain ⟨hc0, hc1⟩ := hc
  obtain ⟨ht0, ht1⟩ := ht
  constructor
  · exact mul_nonneg hc0 (by linarith)
  · nlinarith [mul_nonneg hc0 ht0]

lemma InRange_nudge {c : ℚ} (hc : InRange c) : InRange (min (19/20) (c * (51/50))) := by
  constructor
  · exact le_min (by norm_num) (mul_nonneg hc.1 (by norm_num))
  · exact le_trans (min_le_left _ _) (by norm_num)

lemma InRange_scale {c : ℚ} (hc : InRange c) : InRange (c * (4/5)) := by
  constructor
  · exact mul_nonneg hc.1 (by norm_num)
  · nlinarith [hc.2, hc.1]

lemma ctxMean_range {m : List (String × ℚ)} (h : ∀ p ∈ m, InRange p.2) :
    InRange (ctxMean m) := by
  cases m with
  | nil => simpa [ctxMean] using InRange_zero
  | cons p rest =>
    set l := (p :: rest).map Prod.snd with hl
    have hnn : 0 ≤ l.sum := List.sum_nonneg (by
      intro x hx
      obtain ⟨q, hq, rfl⟩ := List.mem_map.mp hx
      exact (h q hq).1)
    have hle : l.sum ≤ (l.length : ℚ) := by
      calc l.sum ≤ l.length • (1 : ℚ) := List.sum_le_card_nsmul l 1 (by
            intro x hx
            obtain ⟨q, hq, rfl⟩ := List.mem_map.mp hx
            exact (h q hq).2)
      _ = (l.length : ℚ) := by simp
    have hlen : (0 : ℚ) < ((p :: rest).length : ℚ) := by
      simp only [List.length_cons]
      positivity
    constructor
    · exact div_nonneg hnn (le_of_lt hlen)
    · rw [ctxMean, div_le_one hlen]
      simpa [hl] using hle

lemma qmax_range : ∀ (l : List ℚ), (∀ x ∈ l, InRange x) → InRange (qmax l)
  | [], _ => by simpa [qmax] using InRange_zero
  | [x], h => by simpa [qmax] using h x (by simp)
  | x :: y :: rest, h => by
    rw [show qmax (x :: y :: rest) = max x (qmax (y :: rest)) from rfl]
    exact InRange_max (h x (by simp))
      (qmax_range (y :: rest) (fun z hz => h z (List.mem_cons_of_mem _ hz)))

lemma alGetD_range {m : List (String × ℚ)} {k : String} {d : ℚ}
    (h : ∀ p ∈ m, InRange p.2) (hd : InRange d) : InRange (alGetD m k d) := by
  rw [alGetD]
  cases hg : alGet m k with
  | none => simpa using hd
  | some v => simpa using h _ (alGet_mem hg)

lemma alSet_values_range {m : List (String × ℚ)} {k : String} {v : ℚ}
    (h : ∀ p ∈ m, InRange p.2) (hv : InRange v) :
    ∀ p ∈ alSet m k v, InRange p.2 := by
  intro p hp
  rcases mem_alSet hp with rfl | hm
  · exact hv
  · exact h _ hm

lemma recalcMetrics_coherence (t : RelationTensor) (now : ℚ) :
    (recalcMetrics t now).coherence_contribution =
      (recalcMetrics t now).certainty * (1 - (recalcMetrics t now).tension) := by
  simp only [recalcMetrics]
  split_ifs <;> rfl

lemma recalcMetrics_WF {t : RelationTensor} (now : ℚ) (h : WF t) :
    WF (recalcMetrics t now) := by
  obtain ⟨h1, h2, h3, h4, h5⟩ := h
  have hcert : InRange (recalcMetrics t now).certainty := by
    by_cases hc : t.certainty_by_context = []
    · rw [recalcMetrics_certainty_of_nil t now hc]; exact h1
    · rw [recalcMetrics_certainty_of_ne_nil t now hc]; exact ctxMean_range h4
  have hten : InRange (recalcMetrics t now).tension := by
    by_cases hc : t.tension_by_context = []
    · rw [recalcMetrics_tension_of_nil t now hc]; exact h2
    · rw [recalcMetrics_tension_of_ne_nil t now hc]
      refine qmax_range _ ?_
      intro x hx
      obtain ⟨q, hq, rfl⟩ := List.mem_map.mp hx
      exact h5 q hq
  refine ⟨hcert, hten, ?_, ?_, ?_⟩
  · rw [recalcMetrics_coherence]
    exact InRange_coherence hcert hten
  · rw [recalcMetrics_cbc]; exact h4
  · rw [recalcMetrics_tbc]; exact h5

lemma postInit_WF {t : RelationTensor} (now : ℚ) (h : WF t) : WF (postInit t now) := by
  rw [postInit_eq]
  apply recalcMetrics_WF
  obtain ⟨h1, h2, h3, h4, h5⟩ := h
  split_ifs
  · exact ⟨h1, h2, h3, by intro p hp; rcases List.mem_singleton.mp hp with rfl; exact h1, h5⟩
  · exact ⟨h1, h2, h3, h4, h5⟩

lemma activate_WF {t : RelationTensor} (c : String) (now : ℚ) (h : WF t) :
    WF (activate t c now) := by
  obtain ⟨h1, h2, h3, h4, h5⟩ := h
  simp only [activate]
  split_ifs with hlt hhas hhas
  all_goals apply recalcMetrics_WF
  · exact ⟨InRange_nudge h1, h2, h3,
      alSet_values_range h4 (InRange_avg (alGetD_range h4 InRange_zero) (InRange_nudge h1)), h5⟩
  · exact ⟨InRange_nudge h1, h2, h3, alSet_values_range h4 (InRange_nudge h1), h5⟩
  · exact ⟨h1, h2, h3, alSet_values_range h4 (InRange_avg (alGetD_range h4 InRange_zero) h1), h5⟩
  · exact ⟨h1, h2, h3, alSet_values_range h4 h1, h5⟩

lemma update_WF {t : RelationTensor} {nc nt : ℚ} (c : String) (now : ℚ)
    (h : WF t) (hnc : InRange nc) (hnt : InRange nt) :
    WF (update_from_context t c nc nt now) := by
  obtain ⟨h1, h2, h3, h4, h5⟩ := h
  rw [update_from_context_eq]
  apply activate_WF
  apply recalcMetrics_WF
  exact ⟨h1, h2, h3,
    alSet_values_range h4 (InRange_avg (alGetD_range h4 hnc) hnc),
    alSet_values_range h5 (InRange_max (alGetD_range h5 InRange_zero) hnt)⟩

end RangeLemmas

section FoldLemmas

lemma alKeys_cons {α : Type} (k : String) (v : α) (rest : List (String × α)) :
    alKeys ((k, v) :: rest) = k :: alKeys rest := rfl

lemma alKeys_append {α : Type} (a b : List (String × α)) :
    alKeys (a ++ b) = alKeys a ++ alKeys b := by
  simp [alKeys]

lemma alSet_head (k : String) (v x : ℚ) (rest : List (String × ℚ)) :
    alSet ((k, v) :: rest) k x = (k, x) :: rest := by
  simp [alSet]

/-- Folding `alSet` over fresh, pairwise-distinct keys appends the
transformed entries. -/
lemma foldl_alSet_append (f : ℚ → ℚ) :
    ∀ (tm acc : List (String × ℚ)),
      (∀ k ∈ alKeys tm, k ∉ alKeys acc) → (alKeys tm).Nodup →
      tm.foldl (fun m p => alSet m p.1 (f p.2)) acc =
        acc ++ tm.map (fun p => (p.1, f p.2))
  | [], acc, _, _ => by simp
  | (k, v) :: rest, acc, hfresh, hnodup => by
    have hn : (k :: alKeys rest).Nodup := hnodup
    have hk_rest : k ∉ alKeys rest := (List.nodup_cons.mp hn).1
    have hnodup' : (alKeys rest).Nodup := (List.nodup_cons.mp hn).2
    have hk : k ∉ alKeys acc := hfresh k (List.mem_cons_self _ _)
    have hstep : alSet acc k (f v) = acc ++ [(k, f v)] := alSet_of_not_mem _ hk
    have hfresh' : ∀ k'' ∈ alKeys rest, k'' ∉ alKeys (acc ++ [(k, f v)]) := by
      intro k'' hk''
      rw [alKeys_append]
      rw [List.mem_append]
      push_neg
      constructor
      · exact hfresh k'' (List.mem_cons_of_mem _ hk'')
      · rw [show alKeys [(k, f v)] = [k] from rfl, List.mem_singleton]
        intro hEq
        exact hk_rest (hEq ▸ hk'')
    calc ((k, v) :: rest).foldl (fun m p => alSet m p.1 (f p.2)) acc
        = rest.foldl (fun m p => alSet m p.1 (f p.2)) (acc ++ [(k, f v)]) := by
          simp [hstep]
      _ = acc ++ [(k, f v)] ++ rest.map (fun p => (p.1, f p.2)) :=
          foldl_alSet_append f rest (acc ++ [(k, f v)]) hfresh' hnodup'
      _ = acc ++ ((k, v) :: rest).map (fun p => (p.1, f p.2)) := by simp

/-- A key of the map delivers a value. -/
lemma alHas_exists {α : Type} {m : List (String × α)} {k : String}
    (h : k ∈ alKeys m) : ∃ v, alGet m k = some v := by
  have hh : alHas m k = true := (alHas_iff_mem_alKeys m k).mpr h
  rw [alHas] at hh
  cases hg : alGet m k with
  | none => rw [hg] at hh; simp at hh
  | some v => exact ⟨v, rfl⟩

/-- The exact shape of the context map the `split` fold produces, when the
parent map's keys are pairwise distinct and do not contain `genesis`. -/
lemma split_fold_fresh (f : ℚ → ℚ) (w : ℚ) (tm : List (String × ℚ))
    (hnodup : (alKeys tm).Nodup) (hg : "genesis" ∉ alKeys tm) :
    tm.foldl (fun m p => alSet m p.1 (f p.2)) [("genesis", w)] =
      ("genesis", w) :: tm.map (fun p => (p.1, f p.2)) := by
  rw [foldl_alSet_append f tm [("genesis", w)] ?_ hnodup]
  · simp
  · intro k hk
    rw [show alKeys [("genesis", w)] = ["genesis"] from rfl, List.mem_singleton]
    intro hEq
    exact hg (hEq ▸ hk)

/-- The exact shape of the context map the `split` fold produces, when the
parent map contains `genesis`. -/
lemma split_fold_genesis (f : ℚ → ℚ) (w : ℚ) (tm : List (String × ℚ))
    (hnodup : (alKeys tm).Nodup) (hg : "genesis" ∈ alKeys tm) :
    ∃ pre vg post, tm = pre ++ ("genesis", vg) :: post ∧
      tm.foldl (fun m p => alSet m p.1 (f p.2)) [("genesis", w)] =
        ("genesis", f vg) :: (pre ++ post).map (fun p => (p.1, f p.2)) := by
  obtain ⟨vg, hvg⟩ := alHas_exists hg
  obtain ⟨pre, post, htm, hpre⟩ := alGet_split hvg
  subst htm
  refine ⟨pre, vg, post, rfl, ?_⟩
  have hnodup_all : (alKeys pre ++ "genesis" :: alKeys post).Nodup := by
    have : alKeys (pre ++ ("genesis", vg) :: post)
        = alKeys pre ++ "genesis" :: alKeys post := by
      rw [alKeys_append, alKeys_cons]
    rw [this] at hnodup
    exact hnodup
  have hnodup_pre : (alKeys pre).Nodup := List.Nodup.of_append_left hnodup_all
  have hnodup_gp : ("genesis" :: alKeys post).Nodup :=
    List.Nodup.of_append_right hnodup_all
  have hg_post : "genesis" ∉ alKeys post := (List.nodup_cons.mp hnodup_gp).1
  have hnodup_post : (alKeys post).Nodup := (List.nodup_cons.mp hnodup_gp).2
  have hdisj : ∀ k ∈ alKeys post, k ∉ alKeys pre := by
    intro k hkpost hkpre
    have hd := List.disjoint_of_nodup_append hnodup_all
    exact hd hkpre (List.mem_cons_of_mem _ hkpost)
  rw [List.foldl_append]
  rw [foldl_alSet_append f pre [("genesis", w)] ?_ hnodup_pre]
  swap
  · intro k hk
    rw [show alKeys [("genesis", w)] = ["genesis"] from rfl, List.mem_singleton]
    intro hEq
    exact hpre (hEq ▸ hk)
  rw [show List.foldl (fun m p => alSet m p.1 (f p.2))
      ([("genesis", w)] ++ List.map (fun p => (p.1, f p.2)) pre) (("genesis", vg) :: post)
      = List.foldl (fun m p => alSet m p.1 (f p.2))
        (("genesis", f vg) :: List.map (fun p => (p.1, f p.2)) pre) post from by
    simp [alSet_head]]
  rw [foldl_alSet_append f post (("genesis", f vg) :: List.map (fun p => (p.1, f p.2)) pre)
    ?_ hnodup_post]
  · simp
  · intro k hk
    rw [show alKeys (("genesis", f vg) :: List.map (fun p => (p.1, f p.2)) pre)
        = "genesis" :: alKeys (List.map (fun p => (p.1, f p.2)) pre) from rfl]
    rw [List.mem_cons]
    push_neg
    constructor
    · intro hEq
      exact hg_post (hEq ▸ hk)
    · intro hkpre
      apply hdisj k hk
      have : alKeys (List.map (fun p => (p.1, f p.2)) pre) = alKeys pre := by
        simp [alKeys, Function.comp]
      rw [this] at hkpre
      exact hkpre

end FoldLemmas

section SplitMergeLemmas

open RelationTensor

lemma postInit_cbc_of_empty (t : RelationTensor) (now : ℚ)
    (h : t.certainty_by_context = []) :
    (postInit t now).certainty_by_context = [("genesis", t.certainty)] := by
  rw [postInit_eq]
  have he : t.certainty_by_context.isEmpty = true := by simp [h]
  rw [if_pos he, recalcMetrics_cbc]

lemma postInit_tbc (t : RelationTensor) (now : ℚ) :
    (postInit t now).tension_by_context = t.tension_by_context := by
  rw [postInit_eq]
  split_ifs <;> rw [recalcMetrics_tbc]

lemma sum_map_snd_scale (tm : List (String × ℚ)) :
    ((tm.map (fun p => (p.1, p.2 * (4/5)))).map Prod.snd).sum =
      (tm.map Prod.snd).sum * (4/5) := by
  induction tm with
  | nil => simp
  | cons p rest ih =>
    simp only [List.map_cons, List.sum_cons]
    rw [ih]
    ring

lemma split_child_certainty (t : RelationTensor) (vm : String) (ty : Option String)
    (now : ℚ) (cid : String) :
    (split t vm ty now cid).1.certainty = t.certainty * (4/5) := by
  simp only [split]
  exact postInit_certainty_of_empty _ _ rfl

lemma split_child_cbc (t : RelationTensor) (vm : String) (ty : Option String)
    (now : ℚ) (cid : String) :
    (split t vm ty now cid).1.certainty_by_context =
      t.certainty_by_context.foldl (fun m p => alSet m p.1 (p.2 * (4/5)))
        [("genesis", t.certainty * (4/5))] := by
  simp only [split]
  rw [show (RelationTensor.postInit
      { (RelationTensor.defaults now cid) with
        source := t.source, target := t.target, type := ty.getD t.type,
        meaning := "Вариант: " ++ vm,
        intention := "Разделение от " ++ t.habeas_weight_id,
        certainty := t.certainty * (4/5),
        tension := t.tension } now).certainty_by_context
    = [("genesis", t.certainty * (4/5))] from postInit_cbc_of_empty _ _ rfl]

lemma split_child_tbc (t : RelationTensor) (vm : String) (ty : Option String)
    (now : ℚ) (cid : String) :
    (split t vm ty now cid).1.tension_by_context = [] := by
  simp only [split]
  exact postInit_tbc _ _

lemma split_child_tension (t : RelationTensor) (vm : String) (ty : Option String)
    (now : ℚ) (cid : String) :
    (split t vm ty now cid).1.tension = t.tension := by
  simp only [split]
  exact postInit_tension_of_empty _ _ rfl

lemma split_invCert (t : RelationTensor) (vm : String) (ty : Option String)
    (now : ℚ) (cid : String)
    (hnodup : (alKeys t.certainty_by_context).Nodup) (hI : InvCert t) :
    InvCert (split t vm ty now cid).1 := by
  intro _
  rw [split_child_certainty, split_child_cbc]
  by_cases hg : "genesis" ∈ alKeys t.certainty_by_context
  · obtain ⟨pre, vg, post, htm, hfold⟩ :=
      split_fold_genesis (fun x => x * (4/5)) (t.certainty * (4/5))
        t.certainty_by_context hnodup hg
    rw [hfold]
    have htm_ne : t.certainty_by_context ≠ [] := by
      intro hnil
      rw [hnil] at hg
      simp [alKeys] at hg
    have hc := hI htm_ne
    have hv2 : (((pre ++ post).map (fun p => (p.1, p.2 * (4/5)))).map Prod.snd).sum
        = ((pre.map Prod.snd).sum + (post.map Prod.snd).sum) * (4/5) := by
      rw [sum_map_snd_scale]
      simp
    have hvals : (t.certainty_by_context.map Prod.snd).sum =
        (pre.map Prod.snd).sum + vg + (post.map Prod.snd).sum := by
      rw [htm]
      simp only [List.map_append, List.sum_append, List.map_cons, List.sum_cons]
      ring
    have hlen : (t.certainty_by_context.length : ℚ) =
        (pre.length : ℚ) + 1 + (post.length : ℚ) := by
      rw [htm]
      push_cast [List.length_append, List.length_cons]
      ring
    have hlen_pos : (0 : ℚ) < (t.certainty_by_context.length : ℚ) := by
      exact_mod_cast List.length_pos.mpr htm_ne
    rw [ctxMean]
    simp only [List.map_cons, List.sum_cons, List.length_cons, List.length_map,
      List.length_append]
    rw [hv2, hc, ctxMean, hvals, hlen]
    have h1 : (pre.length : ℚ) + 1 + (post.length : ℚ) ≠ 0 := by
      rw [← hlen]
      exact ne_of_gt hlen_pos
    push_cast
    field_simp
    ring
  · rw [split_fold_fresh (fun x => x * (4/5)) (t.certainty * (4/5))
      t.certainty_by_context hnodup hg]
    by_cases htm : t.certainty_by_context = []
    · rw [htm]
      simp [ctxMean]
    · have hc := hI htm
      have hsum := sum_map_snd_scale t.certainty_by_context
      have hlen_pos : (0 : ℚ) < (t.certainty_by_context.length : ℚ) := by
        exact_mod_cast List.length_pos.mpr htm
      have h1 : (t.certainty_by_context.length : ℚ) ≠ 0 := ne_of_gt hlen_pos
      rw [ctxMean]
      simp only [List.map_cons, List.sum_cons, List.length_cons, List.length_map]
      rw [hsum, hc, ctxMean]
      push_cast
      field_simp
      ring

/-- Folding value assignments over a key list: resulting key membership. -/
lemma foldl_alSet_keys (v : String → ℚ) :
    ∀ (L : List String) (acc : List (String × ℚ)) (k : String),
      k ∈ alKeys (L.foldl (fun m c => alSet m c (v c)) acc) ↔ k ∈ alKeys acc ∨ k ∈ L
  | [], acc, k => by simp
  | k₀ :: L, acc, k => by
    rw [show (k₀ :: L).foldl (fun m c => alSet m c (v c)) acc
        = L.foldl (fun m c => alSet m c (v c)) (alSet acc k₀ (v k₀)) from rfl]
    rw [foldl_alSet_keys v L (alSet acc k₀ (v k₀)) k, mem_alKeys_alSet]
    simp only [List.mem_cons]
    tauto

/-- Folding value assignments over a key list: an untouched key keeps its
binding. -/
lemma foldl_alSet_get_not_mem (v : String → ℚ) :
    ∀ (L : List String) (acc : List (String × ℚ)) (k : String), k ∉ L →
      alGet (L.foldl (fun m c => alSet m c (v c)) acc) k = alGet acc k
  | [], acc, k, _ => rfl
  | k₀ :: L, acc, k, hk => by
    have hne : k ≠ k₀ := fun hEq => hk (hEq ▸ List.mem_cons_self _ _)
    have hnot : k ∉ L := fun hmem => hk (List.mem_cons_of_mem _ hmem)
    rw [show (k₀ :: L).foldl (fun m c => alSet m c (v c)) acc
        = L.foldl (fun m c => alSet m c (v c)) (alSet acc k₀ (v k₀)) from rfl]
    rw [foldl_alSet_get_not_mem v L (alSet acc k₀ (v k₀)) k hnot]
    exact alGet_alSet_ne acc (v k₀) hne

/-- Folding value assignments over a key list: every listed key ends bound
to its assigned value (duplicates re-assign the same value). -/
lemma foldl_alSet_get_mem (v : String → ℚ) :
    ∀ (L : List String) (acc : List (String × ℚ)) (k : String), k ∈ L →
      alGet (L.foldl (fun m c => alSet m c (v c)) acc) k = some (v k)
  | [], _, k, hk => absurd hk (List.not_mem_nil k)
  | k₀ :: L, acc, k, hk => by
    rw [show (k₀ :: L).foldl (fun m c => alSet m c (v c)) acc
        = L.foldl (fun m c => alSet m c (v c)) (alSet acc k₀ (v k₀)) from rfl]
    by_cases hmem : k ∈ L
    · exact foldl_alSet_get_mem v L _ k hmem
    · have hEq : k = k₀ := by
        rcases List.mem_cons.mp hk with h | h
        · exact h
        · exact absurd h hmem
      subst hEq
      rw [foldl_alSet_get_not_mem v L _ k hmem]
      exact alGet_alSet_self acc k (v k)

lemma merge_with_none_iff (t o : RelationTensor) (now : ℚ) (mid : String) :
    merge_with t o now mid = none ↔
      ¬(t.source = o.source ∧ t.target = o.target ∧ t.type = o.type) := by
  rw [merge_with]
  split_ifs with h
  · simp [h]
  · simp [h]

end SplitMergeLemmas

section GraphLemmas

open TensorSemanticGraph

lemma add_node_edges (g : TensorSemanticGraph) (nm : String) (attrs : AttrsIn) (now : ℚ) :
    ((add_node g nm attrs now).1).edges = g.edges := rfl

lemma add_node_registry (g : TensorSemanticGraph) (nm : String) (attrs : AttrsIn) (now : ℚ) :
    ((add_node g nm attrs now).1).tensor_registry = g.tensor_registry := rfl

lemma add_node_queue (g : TensorSemanticGraph) (nm : String) (attrs : AttrsIn) (now : ℚ) :
    ((add_node g nm attrs now).1).dreaming_queue = g.dreaming_queue := rfl

lemma add_node_cz (g : TensorSemanticGraph) (nm : String) (attrs : AttrsIn) (now : ℚ) :
    ((add_node g nm attrs now).1).conflict_zones = g.conflict_zones := rfl

lemma add_node_cr (g : TensorSemanticGraph) (nm : String) (attrs : AttrsIn) (now : ℚ) :
    ((add_node g nm attrs now).1).context_registry = g.context_registry := rfl

lemma hasNode_add_node (g : TensorSemanticGraph) (nm : String) (attrs : AttrsIn)
    (now : ℚ) (n : String) :
    hasNode (add_node g nm attrs now).1 n = true ↔ n = nm ∨ hasNode g n = true := by
  show alHas (alSet g.nodes nm _) n = true ↔ _
  rw [alHas_alSet]
  rfl

lemma ensureNode_edges (g : TensorSemanticGraph) (n : String) (now : ℚ) :
    (ensureNode g n now).edges = g.edges := by
  rw [ensureNode]
  split_ifs <;> rfl

lemma ensureNode_registry (g : TensorSemanticGraph) (n : String) (now : ℚ) :
    (ensureNode g n now).tensor_registry = g.tensor_registry := by
  rw [ensureNode]
  split_ifs <;> rfl

lemma ensureNode_queue (g : TensorSemanticGraph) (n : String) (now : ℚ) :
    (ensureNode g n now).dreaming_queue = g.dreaming_queue := by
  rw [ensureNode]
  split_ifs <;> rfl

lemma ensureNode_cz (g : TensorSemanticGraph) (n : String) (now : ℚ) :
    (ensureNode g n now).conflict_zones = g.conflict_zones := by
  rw [ensureNode]
  split_ifs <;> rfl

lemma ensureNode_cr (g : TensorSemanticGraph) (n : String) (now : ℚ) :
    (ensureNode g n now).context_registry = g.context_registry := by
  rw [ensureNode]
  split_ifs <;> rfl

lemma hasNode_ensureNode (g : TensorSemanticGraph) (n k : String) (now : ℚ) :
    hasNode (ensureNode g n now) k = true ↔ k = n ∨ hasNode g k = true := by
  rw [ensureNode]
  split_ifs with h
  · constructor
    · tauto
    · rintro (rfl | hk)
      · exact h
      · exact hk
  · exact hasNode_add_node g n _ now k

lemma markConflicts_edges (g : TensorSemanticGraph) (r : RelationTensor) :
    (markConflicts g r).edges = g.edges := by
  rw [markConflicts]
  exact foldl_induction _ _ _ (fun g' : TensorSemanticGraph => g'.edges = g.edges) rfl
    (fun acc e _ h => h)

lemma markConflicts_registry (g : TensorSemanticGraph) (r : RelationTensor) :
    (markConflicts g r).tensor_registry = g.tensor_registry := by
  rw [markConflicts]
  exact foldl_induction _ _ _ (fun g' : TensorSemanticGraph => g'.tensor_registry = g.tensor_registry) rfl
    (fun acc e _ h => h)

lemma markConflicts_queue (g : TensorSemanticGraph) (r : RelationTensor) :
    (markConflicts g r).dreaming_queue = g.dreaming_queue := by
  rw [markConflicts]
  exact foldl_induction _ _ _ (fun g' : TensorSemanticGraph => g'.dreaming_queue = g.dreaming_queue) rfl
    (fun acc e _ h => h)

lemma markConflicts_nodes (g : TensorSemanticGraph) (r : RelationTensor) :
    (markConflicts g r).nodes = g.nodes := by
  rw [markConflicts]
  exact foldl_induction _ _ _ (fun g' : TensorSemanticGraph => g'.nodes = g.nodes) rfl
    (fun acc e _ h => h)

lemma markConflicts_cr (g : TensorSemanticGraph) (r : RelationTensor) :
    (markConflicts g r).context_registry = g.context_registry := by
  rw [markConflicts]
  exact foldl_induction _ _ _ (fun g' : TensorSemanticGraph => g'.context_registry = g.context_registry) rfl
    (fun acc e _ h => h)

lemma markConflicts_cz_mono (g : TensorSemanticGraph) (r : RelationTensor)
    (x : String) (hx : x ∈ g.conflict_zones) :
    x ∈ (markConflicts g r).conflict_zones := by
  rw [markConflicts]
  exact foldl_induction _ _ _ (fun g' : TensorSemanticGraph => x ∈ g'.conflict_zones) hx
    (fun acc e _ h => by
      show x ∈ sinsert (sinsert acc.conflict_zones _) _
      rw [mem_sinsert, mem_sinsert]
      tauto)

lemma registerContext_edges (g : TensorSemanticGraph) (c : String) (now : ℚ) :
    (registerContext g c now).edges = g.edges := by
  rw [registerContext]
  split_ifs <;> rfl

lemma registerContext_registry (g : TensorSemanticGraph) (c : String) (now : ℚ) :
    (registerContext g c now).tensor_registry = g.tensor_registry := by
  rw [registerContext]
  split_ifs <;> rfl

lemma registerContext_queue (g : TensorSemanticGraph) (c : String) (now : ℚ) :
    (registerContext g c now).dreaming_queue = g.dreaming_queue := by
  rw [registerContext]
  split_ifs <;> rfl

lemma registerContext_nodes (g : TensorSemanticGraph) (c : String) (now : ℚ) :
    (registerContext g c now).nodes = g.nodes := by
  rw [registerContext]
  split_ifs <;> rfl

lemma registerContext_cz (g : TensorSemanticGraph) (c : String) (now : ℚ) :
    (registerContext g c now).conflict_zones = g.conflict_zones := by
  rw [registerContext]
  split_ifs <;> rfl

/-- The state `add_tensor` reaches just before the merge decision. -/
def addPrep (g : TensorSemanticGraph) (r : RelationTensor) (c : String) (now : ℚ) :
    TensorSemanticGraph :=
  registerContext (markConflicts (ensureNode (ensureNode g r.source now) r.target now) r)
    c now

lemma addPrep_edges (g : TensorSemanticGraph) (r : RelationTensor) (c : String) (now : ℚ) :
    (addPrep g r c now).edges = g.edges := by
  rw [addPrep, registerContext_edges, markConflicts_edges, ensureNode_edges,
    ensureNode_edges]

lemma addPrep_registry (g : TensorSemanticGraph) (r : RelationTensor) (c : String)
    (now : ℚ) : (addPrep g r c now).tensor_registry = g.tensor_registry := by
  rw [addPrep, registerContext_registry, markConflicts_registry, ensureNode_registry,
    ensureNode_registry]

lemma addPrep_queue (g : TensorSemanticGraph) (r : RelationTensor) (c : String)
    (now : ℚ) : (addPrep g r c now).dreaming_queue = g.dreaming_queue := by
  rw [addPrep, registerContext_queue, markConflicts_queue, ensureNode_queue,
    ensureNode_queue]

lemma hasNode_addPrep (g : TensorSemanticGraph) (r : RelationTensor) (c : String)
    (now : ℚ) (n : String) :
    hasNode (addPrep g r c now) n = true ↔
      n = r.source ∨ n = r.target ∨ hasNode g n = true := by
  rw [addPrep]
  rw [show hasNode (registerContext (markConflicts _ r) c now) n
      = hasNode (markConflicts (ensureNode (ensureNode g r.source now) r.target now) r) n
    from by
      rw [hasNode, registerContext_nodes, hasNode]]
  rw [show hasNode (markConflicts (ensureNode (ensureNode g r.source now) r.target now) r) n
      = hasNode (ensureNode (ensureNode g r.source now) r.target now) n from by
      rw [hasNode, markConflicts_nodes, hasNode]]
  rw [hasNode_ensureNode, hasNode_ensureNode]
  tauto

/-- `add_tensor` is the merge decision applied to the prepared state and the
mutated incoming record. -/
lemma add_tensor_eq (g : TensorSemanticGraph) (r : RelationTensor) (c : String)
    (a : Bool) (now : ℚ) :
    add_tensor g r c a now =
      (match mergeMatch (addPrep g r c now)
          (r.update_from_context c r.certainty 0 now) a with
        | some e => mergeInto (addPrep g r c now) e
            (r.update_from_context c r.certainty 0 now) c now
        | none => insertNew (addPrep g r c now)
            (r.update_from_context c r.certainty 0 now) c now) := by
  rw [add_tensor, addPrep]

lemma mergeInto_id (g : TensorSemanticGraph) (e : Edge) (r : RelationTensor)
    (c : String) (now : ℚ) :
    (mergeInto g e r c now).id = e.tensor.habeas_weight_id := rfl

lemma mergeInto_relation (g : TensorSemanticGraph) (e : Edge) (r : RelationTensor)
    (c : String) (now : ℚ) : (mergeInto g e r c now).relation = r := rfl

lemma mergeInto_edges (g : TensorSemanticGraph) (e : Edge) (r : RelationTensor)
    (c : String) (now : ℚ) :
    (mergeInto g e r c now).graph.edges =
      g.edges.map fun e' => if e'.key == e.key then
        { e' with tensor :=
            (if r.meaning.length > (e.tensor.update_from_context c r.certainty 0 now).meaning.length
              then { (e.tensor.update_from_context c r.certainty 0 now) with meaning := r.meaning }
              else (e.tensor.update_from_context c r.certainty 0 now)) }
        else e' := rfl

lemma mergeInto_registry_keys (g : TensorSemanticGraph) (e : Edge) (r : RelationTensor)
    (c : String) (now : ℚ) :
    alKeys (mergeInto g e r c now).graph.tensor_registry = alKeys g.tensor_registry := by
  rw [show (mergeInto g e r c now).graph.tensor_registry
      = alUpd g.tensor_registry e.tensor.habeas_weight_id _ from rfl]
  rw [alKeys_alUpd]

lemma mergeInto_queue (g : TensorSemanticGraph) (e : Edge) (r : RelationTensor)
    (c : String) (now : ℚ) :
    (mergeInto g e r c now).graph.dreaming_queue = g.dreaming_queue := rfl

lemma mergeInto_nodes (g : TensorSemanticGraph) (e : Edge) (r : RelationTensor)
    (c : String) (now : ℚ) :
    (mergeInto g e r c now).graph.nodes = g.nodes := rfl

lemma mergeInto_cz (g : TensorSemanticGraph) (e : Edge) (r : RelationTensor)
    (c : String) (now : ℚ) :
    (mergeInto g e r c now).graph.conflict_zones = g.conflict_zones := rfl

lemma insertNew_id (g : TensorSemanticGraph) (r : RelationTensor) (c : String)
    (now : ℚ) : (insertNew g r c now).id = r.habeas_weight_id := rfl

lemma insertNew_relation (g : TensorSemanticGraph) (r : RelationTensor) (c : String)
    (now : ℚ) : (insertNew g r c now).relation = r := rfl

lemma insertNew_edges (g : TensorSemanticGraph) (r : RelationTensor) (c : String)
    (now : ℚ) :
    (insertNew g r c now).graph.edges = g.edges ++
      [{ source := r.source, target := r.target,
         key := r.source ++ "→" ++ r.target ++ ":" ++ r.type ++ ":" ++ toString g.uuid_counter,
         tensor := r, created_at := now, context_id := c }] := rfl

lemma insertNew_registry (g : TensorSemanticGraph) (r : RelationTensor) (c : String)
    (now : ℚ) :
    (insertNew g r c now).graph.tensor_registry =
      alSet g.tensor_registry r.habeas_weight_id r := rfl

lemma insertNew_queue (g : TensorSemanticGraph) (r : RelationTensor) (c : String)
    (now : ℚ) :
    (insertNew g r c now).graph.dreaming_queue =
      heappush g.dreaming_queue (-(r.certainty * (1 - r.tension)), r.source, r.target) := rfl

lemma insertNew_nodes (g : TensorSemanticGraph) (r : RelationTensor) (c : String)
    (now : ℚ) : (insertNew g r c now).graph.nodes = g.nodes := rfl

lemma insertNew_cz (g : TensorSemanticGraph) (r : RelationTensor) (c : String)
    (now : ℚ) : (insertNew g r c now).graph.conflict_zones = g.conflict_zones := rfl

lemma add_tensor_relation (g : TensorSemanticGraph) (r : RelationTensor) (c : String)
    (a : Bool) (now : ℚ) :
    (add_tensor g r c a now).relation = r.update_from_context c r.certainty 0 now := by
  rw [add_tensor_eq]
  cases mergeMatch (addPrep g r c now) (r.update_from_context c r.certainty 0 now) a with
  | some e => rfl
  | none => rfl

end GraphLemmas

section ClaimC1

open TensorSemanticGraph RelationTensor

lemma edgesBetween_addPrep (g : TensorSemanticGraph) (r : RelationTensor)
    (c : String) (now : ℚ) (u v : String) :
    edgesBetween (addPrep g r c now) u v = edgesBetween g u v := by
  rw [edgesBetween, edgesBetween, addPrep_edges]

/-- C1: adding an edge record is idempotent on (source, target, type,
meaning): when a record with the same source, target, type and exact meaning
is already stored, `add_tensor` with `auto_merge` creates no new edge and no
new registry entry, folds the incoming confidence into the (first) existing
record via `update_from_context` — its activation count increases by one and
its context map keeps its old contexts and gains the insertion context — and
returns the existing record's id. -/
theorem add_tensor_merge_idempotent
    (g : TensorSemanticGraph) (r : RelationTensor) (ctx : String) (now : ℚ)
    (hany : (edgesBetween g r.source r.target).any
        (fun e => e.tensor.type == r.type && e.tensor.meaning == r.meaning) = true) :
    ∃ e₀ ∈ edgesBetween g r.source r.target,
      e₀.tensor.type = r.type ∧ e₀.tensor.meaning = r.meaning ∧
      (add_tensor g r ctx true now).id = e₀.tensor.habeas_weight_id ∧
      (add_tensor g r ctx true now).graph.edges.length = g.edges.length ∧
      alKeys (add_tensor g r ctx true now).graph.tensor_registry
        = alKeys g.tensor_registry ∧
      ∃ e' ∈ (add_tensor g r ctx true now).graph.edges,
        e'.key = e₀.key ∧
        e'.tensor.activation_count = e₀.tensor.activation_count + 1 ∧
        alHas e'.tensor.certainty_by_context ctx = true ∧
        (∀ k, alHas e₀.tensor.certainty_by_context k = true →
          alHas e'.tensor.certainty_by_context k = true) ∧
        e'.tensor.meaning = e₀.tensor.meaning := by
  set r' := r.update_from_context ctx r.certainty 0 now with hr'
  have hpred : (fun e => e.tensor.type == r'.type && e.tensor.meaning == r'.meaning)
      = (fun e : Edge => e.tensor.type == r.type && e.tensor.meaning == r.meaning) := by
    funext e
    rw [hr', update_type, update_meaning]
  have hmm : mergeMatch (addPrep g r ctx now) r' true =
      (edgesBetween g r.source r.target).find?
        (fun e => e.tensor.type == r.type && e.tensor.meaning == r.meaning) := by
    rw [mergeMatch, if_pos rfl, hr', update_source, update_target, ← hr', hpred,
      edgesBetween_addPrep]
  obtain ⟨e₀, he₀⟩ : ∃ e₀, (edgesBetween g r.source r.target).find?
      (fun e => e.tensor.type == r.type && e.tensor.meaning == r.meaning) = some e₀ := by
    cases hf : (edgesBetween g r.source r.target).find?
        (fun e => e.tensor.type == r.type && e.tensor.meaning == r.meaning) with
    | none =>
      obtain ⟨x, hx, hpx⟩ := List.any_eq_true.mp hany
      exact absurd hpx (by simpa using List.find?_eq_none.mp hf x hx)
    | some e₀ => exact ⟨e₀, rfl⟩
  have hmem : e₀ ∈ edgesBetween g r.source r.target := List.mem_of_find?_eq_some he₀
  have hp : e₀.tensor.type = r.type ∧ e₀.tensor.meaning = r.meaning := by
    have := List.find?_some he₀
    simpa [Bool.and_eq_true] using this
  have hresult : add_tensor g r ctx true now = mergeInto (addPrep g r ctx now) e₀ r' ctx now := by
    rw [add_tensor_eq, ← hr', hmm, he₀]
  set et₀ := e₀.tensor.update_from_context ctx r'.certainty 0 now with het₀
  have hmeaning_eq : r'.meaning = et₀.meaning := by
    rw [hr', update_meaning, het₀, update_meaning, hp.2]
  have het : (if r'.meaning.length > et₀.meaning.length then
      { et₀ with meaning := r'.meaning } else et₀) = et₀ := by
    rw [if_neg]
    rw [hmeaning_eq]
    simp
  refine ⟨e₀, hmem, hp.1, hp.2, ?_, ?_, ?_, ?_⟩
  · rw [hresult, mergeInto_id]
  · rw [hresult]
    rw [show (mergeInto (addPrep g r ctx now) e₀ r' ctx now).graph.edges
        = (addPrep g r ctx now).edges.map _ from mergeInto_edges _ _ _ _ _]
    rw [List.length_map, addPrep_edges]
  · rw [hresult, mergeInto_registry_keys, addPrep_registry]
  · have hmem_edges : e₀ ∈ (addPrep g r ctx now).edges := by
      rw [addPrep_edges]
      exact List.mem_of_mem_filter hmem
    refine ⟨{ e₀ with tensor := et₀ }, ?_, rfl, ?_, ?_, ?_, ?_⟩
    · rw [hresult]
      rw [show (mergeInto (addPrep g r ctx now) e₀ r' ctx now).graph.edges
          = (addPrep g r ctx now).edges.map _ from mergeInto_edges _ _ _ _ _]
      have := List.mem_map_of_mem (fun e' : Edge => if e'.key == e₀.key then
        { e' with tensor :=
            (if r'.meaning.length > (e₀.tensor.update_from_context ctx r'.certainty 0 now).meaning.length
              then { (e₀.tensor.update_from_context ctx r'.certainty 0 now) with meaning := r'.meaning }
              else (e₀.tensor.update_from_context ctx r'.certainty 0 now)) }
        else e') hmem_edges
      simpa [← het₀, het] using this
    · rw [het₀, update_activation_count]
    · rw [het₀]
      exact update_alHas_self _ _ _ _ _
    · intro k hk
      rw [het₀]
      exact update_alHas_mono _ _ _ _ _ _ hk
    · show et₀.meaning = e₀.tensor.meaning
      rw [het₀, update_meaning]

/-- C1 witness: inserting the A→B/Λ/"x" record into the scenario graph a
second time exercises the merge path. -/
theorem add_tensor_merge_idempotent_witness :
    ((edgesBetween gPath "A" "B").any
      (fun e => e.tensor.type == "Λ" && e.tensor.meaning == "x") = true) ∧
    (∃ e₀ ∈ edgesBetween gPath (mkRel "W1" "A" "B" "x" (1/2)).source
        (mkRel "W1" "A" "B" "x" (1/2)).target,
      e₀.tensor.type = (mkRel "W1" "A" "B" "x" (1/2)).type ∧
      e₀.tensor.meaning = (mkRel "W1" "A" "B" "x" (1/2)).meaning ∧
      (add_tensor gPath (mkRel "W1" "A" "B" "x" (1/2)) "ctx2" true 0).id
        = e₀.tensor.habeas_weight_id ∧
      (add_tensor gPath (mkRel "W1" "A" "B" "x" (1/2)) "ctx2" true 0).graph.edges.length
        = gPath.edges.length ∧
      alKeys (add_tensor gPath (mkRel "W1" "A" "B" "x" (1/2)) "ctx2" true 0).graph.tensor_registry
        = alKeys gPath.tensor_registry ∧
      ∃ e' ∈ (add_tensor gPath (mkRel "W1" "A" "B" "x" (1/2)) "ctx2" true 0).graph.edges,
        e'.key = e₀.key ∧
        e'.tensor.activation_count = e₀.tensor.activation_count + 1 ∧
        alHas e'.tensor.certainty_by_context "ctx2" = true ∧
        (∀ k, alHas e₀.tensor.certainty_by_context k = true →
          alHas e'.tensor.certainty_by_context k = true) ∧
        e'.tensor.meaning = e₀.tensor.meaning) := by
  constructor
  · norm_num +decide [gPath, addR, mkRel, add_tensor, ensureNode, markConflicts,
      registerContext, mergeMatch, mergeInto, insertNew, add_node, postInit, activate,
      recalcMetrics, defaults, update_from_context, alGetD, alGet, alSet, alHas, alUpd,
      ctxMean, qmax, sinsert, hasNode, hasEdge, edgesBetween, heappush, queueLt]
  · have h := add_tensor_merge_idempotent gPath (mkRel "W1" "A" "B" "x" (1/2)) "ctx2" 0
      (by norm_num +decide [gPath, addR, mkRel, add_tensor, ensureNode, markConflicts,
        registerContext, mergeMatch, mergeInto, insertNew, add_node, postInit, activate,
        recalcMetrics, defaults, update_from_context, alGetD, alGet, alSet, alHas, alUpd,
        ctxMean, qmax, sinsert, hasNode, hasEdge, edgesBetween, heappush, queueLt])
    exact h

end ClaimC1

section ClaimC10

open TensorSemanticGraph RelationTensor

/-- C10: every `add_tensor` call mutates the incoming record before the merge
decision: its activation count increases by one and the insertion context
enters its context map — and when the call merges into an existing record,
the incoming record itself is never registered (the registry's key set is
unchanged). -/
theorem add_tensor_mutates_incoming
    (g : TensorSemanticGraph) (r : RelationTensor) (ctx : String) (a : Bool) (now : ℚ) :
    (add_tensor g r ctx a now).relation.activation_count = r.activation_count + 1 ∧
    alHas (add_tensor g r ctx a now).relation.certainty_by_context ctx = true ∧
    ((mergeMatch (addPrep g r ctx now)
        (r.update_from_context ctx r.certainty 0 now) a).isSome = true →
      alKeys (add_tensor g r ctx a now).graph.tensor_registry
        = alKeys g.tensor_registry) := by
  refine ⟨?_, ?_, ?_⟩
  · rw [add_tensor_relation, update_activation_count]
  · rw [add_tensor_relation]
    exact update_alHas_self _ _ _ _ _
  · intro hsome
    rw [add_tensor_eq]
    cases hm : mergeMatch (addPrep g r ctx now)
        (r.update_from_context ctx r.certainty 0 now) a with
    | none => rw [hm] at hsome; simp at hsome
    | some e =>
      rw [show (match (some e : Option Edge) with
          | some e => mergeInto (addPrep g r ctx now) e
              (r.update_from_context ctx r.certainty 0 now) ctx now
          | none => insertNew (addPrep g r ctx now)
              (r.update_from_context ctx r.certainty 0 now) ctx now)
          = mergeInto (addPrep g r ctx now) e
              (r.update_from_context ctx r.certainty 0 now) ctx now from rfl]
      rw [mergeInto_registry_keys, addPrep_registry]

/-- C10 witness: the merge-path insertion of the scenario graph mutates the
incoming record without registering it. -/
theorem add_tensor_mutates_incoming_witness :
    ((mergeMatch (addPrep gPath (mkRel "W2" "A" "B" "x" (1/2)) "cw" 0)
        ((mkRel "W2" "A" "B" "x" (1/2)).update_from_context "cw"
          (mkRel "W2" "A" "B" "x" (1/2)).certainty 0 0) true).isSome = true) ∧
    (add_tensor gPath (mkRel "W2" "A" "B" "x" (1/2)) "cw" true 0).relation.activation_count
      = (mkRel "W2" "A" "B" "x" (1/2)).activation_count + 1 ∧
    alHas (add_tensor gPath (mkRel "W2" "A" "B" "x" (1/2)) "cw" true 0).relation.certainty_by_context
      "cw" = true ∧
    alKeys (add_tensor gPath (mkRel "W2" "A" "B" "x" (1/2)) "cw" true 0).graph.tensor_registry
      = alKeys gPath.tensor_registry := by
  have hsome : (mergeMatch (addPrep gPath (mkRel "W2" "A" "B" "x" (1/2)) "cw" 0)
      ((mkRel "W2" "A" "B" "x" (1/2)).update_from_context "cw"
        (mkRel "W2" "A" "B" "x" (1/2)).certainty 0 0) true).isSome = true := by
    norm_num +decide [gPath, addR, mkRel, addPrep, ensureNode, markConflicts,
      registerContext, mergeMatch, add_node, postInit, activate,
      recalcMetrics, defaults, update_from_context, alGetD, alGet, alSet, alHas, alUpd,
      ctxMean, qmax, sinsert, hasNode, hasEdge, edgesBetween, add_tensor, mergeInto,
      insertNew, heappush, queueLt]
  have h := add_tensor_mutates_incoming gPath (mkRel "W2" "A" "B" "x" (1/2)) "cw" true 0
  exact ⟨hsome, h.1, h.2.1, h.2.2 hsome⟩

end ClaimC10

section ClaimC9

/-- C9 counterexample: with an empty history — zero points fall inside any
window, hence fewer than 2 — the trend is reported as "stable", not as
"insufficient_data" as the claim demands. -/
theorem coherence_trend_empty_counterexample :
    (get_coherence_trend [] 24 0).trend = "stable" ∧
    (get_coherence_trend [] 24 0).trend ≠ "insufficient_data" ∧
    ([] : List (ℚ × ℚ)).length < 2 := by
  refine ⟨rfl, ?_, by norm_num⟩
  rw [show (get_coherence_trend [] 24 0).trend = "stable" from rfl]
  decide

/-- C9 (amended): with a nonempty history, `get_coherence_trend` returns
"insufficient_data" whenever fewer than 2 points fall in the window; with an
empty history it short-circuits to "stable"; with at least 2 points in the
window the trend is "improving" when last − first exceeds 0.05, "degrading"
when below −0.05, else "stable". -/
theorem coherence_trend_spec (history : List (ℚ × ℚ)) (wh now : ℚ) :
    (history = [] →
      get_coherence_trend history wh now = { trend := "stable", change := 0, data_points := 0 }) ∧
    (history ≠ [] →
      (history.filter fun p => decide (p.1 ≥ now - wh)).length < 2 →
      (get_coherence_trend history wh now).trend = "insufficient_data" ∧
      (get_coherence_trend history wh now).data_points
        = (history.filter fun p => decide (p.1 ≥ now - wh)).length) ∧
    (history ≠ [] →
      2 ≤ (history.filter fun p => decide (p.1 ≥ now - wh)).length →
      (get_coherence_trend history wh now).change =
        (((history.filter fun p => decide (p.1 ≥ now - wh)).getLast?).getD (0, 0)).2 -
        (((history.filter fun p => decide (p.1 ≥ now - wh)).head?).getD (0, 0)).2 ∧
      (get_coherence_trend history wh now).trend =
        (if (get_coherence_trend history wh now).change > 1/20 then "improving"
         else if (get_coherence_trend history wh now).change < -(1/20) then "degrading"
         else "stable")) := by
  refine ⟨?_, ?_, ?_⟩
  · intro h
    rw [get_coherence_trend, if_pos (by simp [h])]
  · intro hne hlt
    have hnem : history.isEmpty = false := by
      cases history with
      | nil => exact absurd rfl hne
      | cons a l => rfl
    rw [get_coherence_trend]
    rw [if_neg (by simp [hnem])]
    rw [if_pos hlt]
    exact ⟨rfl, rfl⟩
  · intro hne hge
    have hnem : history.isEmpty = false := by
      cases history with
      | nil => exact absurd rfl hne
      | cons a l => rfl
    rw [get_coherence_trend]
    rw [if_neg (by simp [hnem])]
    rw [if_neg (by omega)]
    constructor
    · rfl
    · rfl

/-- C9 witness: a two-point rising history inside the window is reported as
improving. -/
theorem coherence_trend_spec_witness :
    histTwo ≠ [] ∧
    2 ≤ (histTwo.filter fun p => decide (p.1 ≥ (1 : ℚ) - 24)).length ∧
    (get_coherence_trend histTwo 24 1).change =
      (((histTwo.filter fun p => decide (p.1 ≥ (1 : ℚ) - 24)).getLast?).getD (0, 0)).2 -
      (((histTwo.filter fun p => decide (p.1 ≥ (1 : ℚ) - 24)).head?).getD (0, 0)).2 ∧
    (get_coherence_trend histTwo 24 1).trend = "improving" := by
  have h1 : histTwo ≠ [] := by simp [histTwo]
  have h2 : 2 ≤ (histTwo.filter fun p => decide (p.1 ≥ (1 : ℚ) - 24)).length := by
    norm_num [histTwo]
  have h := (coherence_trend_spec histTwo 24 1).2.2 h1 h2
  refine ⟨h1, h2, h.1, ?_⟩
  rw [h.2]
  norm_num [get_coherence_trend, histTwo]

end ClaimC9

section ClaimC4

open TensorSemanticGraph DreamingEngine

/-- C4 counterexample: `accept_suggestion` does not consult the `suggested`
flag.  A graph-level dreaming hypothesis carries `suggested = False` yet is
accepted without error, and a record with `suggested = True` but an ordinary
status raises. -/
theorem accept_suggestion_flag_counterexample :
    tDream.suggested = false ∧
    (accept_suggestion {} tDream "dream_accepted" 0).isSome = true ∧
    tFlagged.suggested = true ∧
    accept_suggestion {} tFlagged "dream_accepted" 0 = none := by
  refine ⟨?_, ?_, ?_, ?_⟩
  · norm_num +decide [tDream, mkRel, RelationTensor.postInit, RelationTensor.recalcMetrics,
      RelationTensor.defaults, ctxMean, qmax]
  · norm_num +decide [accept_suggestion, tDream, mkRel, RelationTensor.postInit,
      RelationTensor.recalcMetrics, RelationTensor.defaults, ctxMean, qmax]
  · norm_num +decide [tFlagged, mkRel, RelationTensor.postInit, RelationTensor.recalcMetrics,
      RelationTensor.defaults, ctxMean, qmax]
  · norm_num +decide [accept_suggestion, tFlagged, mkRel, RelationTensor.postInit,
      RelationTensor.recalcMetrics, RelationTensor.defaults, ctxMean, qmax]

/-- C4 (amended): `accept_suggestion(record, contextId)` raises exactly when
`record.ethical_status ≠ "dreaming"` (the `suggested` flag is never read or
written); on success it inserts, via `add_tensor`, the record with its status
set to "active" and its meaning prefix rewritten from the hypothesis wording
to the accepted-hypothesis wording, with `suggested` left unchanged. -/
theorem accept_suggestion_spec (g : TensorSemanticGraph) (t : RelationTensor)
    (ctx : String) (now : ℚ) :
    (accept_suggestion g t ctx now = none ↔ t.ethical_status ≠ "dreaming") ∧
    (t.ethical_status = "dreaming" →
      accept_suggestion g t ctx now = some (add_tensor g (acceptPrep t) ctx true now) ∧
      (acceptPrep t).ethical_status = "active" ∧
      (acceptPrep t).meaning = pyReplace t.meaning "Сновидение:" "Принятая гипотеза:" ∧
      (acceptPrep t).suggested = t.suggested ∧
      (acceptPrep t).source = t.source ∧ (acceptPrep t).target = t.target) := by
  constructor
  · rw [accept_suggestion]
    split_ifs with h
    · simp [h]
    · simp [h]
  · intro h
    rw [accept_suggestion, if_neg (by simp [h])]
    exact ⟨rfl, rfl, rfl, rfl, rfl, rfl⟩

/-- C4 witness: accepting the dreaming record succeeds and produces the
active, rewritten record. -/
theorem accept_suggestion_spec_witness :
    tDream.ethical_status = "dreaming" ∧
    accept_suggestion {} tDream "dream_accepted" 0 =
      some (add_tensor {} (acceptPrep tDream) "dream_accepted" true 0) ∧
    (acceptPrep tDream).ethical_status = "active" ∧
    (acceptPrep tDream).suggested = tDream.suggested := by
  have hs : tDream.ethical_status = "dreaming" := rfl
  have h := (accept_suggestion_spec {} tDream "dream_accepted" 0).2 hs
  exact ⟨hs, h.1, h.2.1, h.2.2.2.1⟩

end ClaimC4

section ClaimC6

open RelationTensor

/-- C6 counterexample: merging two records whose context maps both lack the
`genesis` key yields a context map keyed by the union *plus* `genesis` — the
`__post_init__` seeding of the merged record survives alongside the union. -/
theorem merge_adds_genesis_counterexample :
    ((merge_with tGenA tGenB 0 "M").map fun m => alKeys m.certainty_by_context) =
      some ["genesis", "a", "b"] ∧
    "genesis" ∉ alKeys tGenA.certainty_by_context ∧
    "genesis" ∉ alKeys tGenB.certainty_by_context := by
  refine ⟨?_, ?_, ?_⟩
  · norm_num +decide [merge_with, tGenA, tGenB, postInit, recalcMetrics, defaults,
      ctxMean, qmax, alKeys, alSet, alGetD, alGet, sunion, sinsert]
  · norm_num +decide [tGenA, postInit, recalcMetrics, defaults, ctxMean, qmax, alKeys]
  · norm_num +decide [tGenB, postInit, recalcMetrics, defaults, ctxMean, qmax, alKeys]

/-- C6 (amended): `merge_with` fails exactly when the two records differ in
source, target or type; otherwise the new record's confidence is the average
of the two, its tension the maximum, its parent list holds both ids, every
key of either context map is bound to the 0-defaulted average, and the key
set is the union of the two key sets together with `genesis` (which the
merged record's own construction seeds). -/
theorem merge_with_spec (t o : RelationTensor) (now : ℚ) (mid : String) :
    (merge_with t o now mid = none ↔
      ¬(t.source = o.source ∧ t.target = o.target ∧ t.type = o.type)) ∧
    (∀ m, merge_with t o now mid = some m →
      m.certainty = (t.certainty + o.certainty) / 2 ∧
      m.tension = max t.tension o.tension ∧
      m.parent_tensors = [t.habeas_weight_id, o.habeas_weight_id] ∧
      (∀ k, k ∈ alKeys m.certainty_by_context ↔
        k = "genesis" ∨ k ∈ alKeys t.certainty_by_context ∨
          k ∈ alKeys o.certainty_by_context) ∧
      (∀ k, k ∈ alKeys t.certainty_by_context ∨ k ∈ alKeys o.certainty_by_context →
        alGet m.certainty_by_context k =
          some ((alGetD t.certainty_by_context k 0 + alGetD o.certainty_by_context k 0) / 2))) := by
  refine ⟨merge_with_none_iff t o now mid, ?_⟩
  intro m hm
  by_cases hc : t.source = o.source ∧ t.target = o.target ∧ t.type = o.type
  case neg =>
    rw [merge_with, if_pos hc] at hm
    exact absurd hm (by simp)
  case pos =>
    rw [merge_with, if_neg (not_not_intro hc)] at hm
    simp only [Option.some.injEq] at hm
    subst hm
    refine ⟨?_, ?_, rfl, ?_, ?_⟩
    · exact postInit_certainty_of_empty _ _ rfl
    · exact postInit_tension_of_empty _ _ rfl
    · intro k
      show k ∈ alKeys ((sunion (alKeys t.certainty_by_context)
        (alKeys o.certainty_by_context)).foldl _ _) ↔ _
      rw [show (RelationTensor.postInit
          { (RelationTensor.defaults now mid) with
            source := t.source, target := t.target, type := t.type,
            meaning := "Σ(" ++ t.meaning ++ ", " ++ o.meaning ++ ")",
            certainty := (t.certainty + o.certainty) / 2,
            tension := max t.tension o.tension } now).certainty_by_context
        = [("genesis", (t.certainty + o.certainty) / 2)] from
        postInit_cbc_of_empty _ _ rfl]
      rw [foldl_alSet_keys]
      rw [show alKeys [("genesis", (t.certainty + o.certainty) / 2)] = ["genesis"] from rfl]
      rw [List.mem_singleton, mem_sunion]
    · intro k hk
      show alGet ((sunion (alKeys t.certainty_by_context)
        (alKeys o.certainty_by_context)).foldl _ _) k = _
      exact foldl_alSet_get_mem _ _ _ k ((mem_sunion _ _ k).mpr hk)

/-- C6 witness: merging the two compatible records of the counterexample pair
averages the confidences. -/
theorem merge_with_spec_witness :
    ∃ m, merge_with tMergeA tMergeB 0 "M" = some m ∧
      m.certainty = (tMergeA.certainty + tMergeB.certainty) / 2 ∧
      m.parent_tensors = [tMergeA.habeas_weight_id, tMergeB.habeas_weight_id] := by
  have hs : (merge_with tMergeA tMergeB 0 "M").isSome = true := by
    norm_num +decide [merge_with, tMergeA, tMergeB, postInit, recalcMetrics, defaults,
      ctxMean, qmax, alKeys, alSet, alGetD, alGet, sunion, sinsert]
  obtain ⟨m, hm⟩ := Option.isSome_iff_exists.mp hs
  have h := (merge_with_spec tMergeA tMergeB 0 "M").2 m hm
  exact ⟨m, hm, h.1, h.2.2.1⟩

end ClaimC6

section ClaimC3

open RelationTensor

lemma foldl_alSet_pairs_values_range :
    ∀ (tm : List (String × ℚ)) (acc : List (String × ℚ)),
      (∀ p ∈ acc, InRange p.2) → (∀ p ∈ tm, InRange p.2) →
      ∀ p ∈ tm.foldl (fun m q => alSet m q.1 (q.2 * (4/5))) acc, InRange p.2
  | [], _, hacc, _ => hacc
  | q :: tm, acc, hacc, htm => by
    rw [show ((q :: tm).foldl (fun m q => alSet m q.1 (q.2 * (4/5))) acc)
        = tm.foldl (fun m q => alSet m q.1 (q.2 * (4/5))) (alSet acc q.1 (q.2 * (4/5)))
      from rfl]
    exact foldl_alSet_pairs_values_range tm _
      (alSet_values_range hacc (InRange_scale (htm q (List.mem_cons_self _ _))))
      (fun p hp => htm p (List.mem_cons_of_mem _ hp))

lemma foldl_alSet_values_range (v : String → ℚ) (hv : ∀ c, InRange (v c)) :
    ∀ (L : List String) (acc : List (String × ℚ)), (∀ p ∈ acc, InRange p.2) →
      ∀ p ∈ L.foldl (fun m c => alSet m c (v c)) acc, InRange p.2
  | [], _, hacc => hacc
  | c :: L, acc, hacc => by
    rw [show ((c :: L).foldl (fun m c => alSet m c (v c)) acc)
        = L.foldl (fun m c => alSet m c (v c)) (alSet acc c (v c)) from rfl]
    exact foldl_alSet_values_range v hv L _ (alSet_values_range hacc (hv c))

lemma split_child_coherence (t : RelationTensor) (vm : String) (ty : Option String)
    (now : ℚ) (cid : String) :
    (split t vm ty now cid).1.coherence_contribution =
      (split t vm ty now cid).1.certainty * (1 - (split t vm ty now cid).1.tension) := by
  simp only [split]
  rw [postInit_eq]
  exact recalcMetrics_coherence _ _

lemma split_WF (t : RelationTensor) (vm : String) (ty : Option String)
    (now : ℚ) (cid : String) (h : WF t) : WF (split t vm ty now cid).1 := by
  obtain ⟨h1, h2, _h3, h4, _h5⟩ := h
  have hcert : InRange (split t vm ty now cid).1.certainty := by
    rw [split_child_certainty]; exact InRange_scale h1
  have hten : InRange (split t vm ty now cid).1.tension := by
    rw [split_child_tension]; exact h2
  refine ⟨hcert, hten, ?_, ?_, ?_⟩
  · rw [split_child_coherence]; exact InRange_coherence hcert hten
  · rw [split_child_cbc]
    refine foldl_alSet_pairs_values_range t.certainty_by_context _ ?_ h4
    intro p hp
    rcases List.mem_singleton.mp hp with rfl
    exact InRange_scale h1
  · rw [split_child_tbc]
    intro p hp
    exact absurd hp (List.not_mem_nil p)

/-- The shape every successful `merge_with` result takes: averaged global
confidence, maximal tension, empty tension map, recomputed coherence, and
the context map obtained by folding the averaged bindings over the seeded
`genesis` singleton. -/
lemma merge_with_facts {t o : RelationTensor} {now : ℚ} {mid : String}
    {m : RelationTensor} (hm : merge_with t o now mid = some m) :
    m.certainty = (t.certainty + o.certainty) / 2 ∧
    m.tension = max t.tension o.tension ∧
    m.tension_by_context = [] ∧
    m.coherence_contribution = m.certainty * (1 - m.tension) ∧
    m.certainty_by_context =
      (sunion (alKeys t.certainty_by_context) (alKeys o.certainty_by_context)).foldl
        (fun mm c => alSet mm c
          ((alGetD t.certainty_by_context c 0 + alGetD o.certainty_by_context c 0) / 2))
        [("genesis", (t.certainty + o.certainty) / 2)] := by
  by_cases hc : t.source = o.source ∧ t.target = o.target ∧ t.type = o.type
  case neg =>
    rw [merge_with, if_pos hc] at hm
    exact absurd hm (by simp)
  case pos =>
    rw [merge_with, if_neg (not_not_intro hc)] at hm
    simp only [Option.some.injEq] at hm
    subst hm
    refine ⟨postInit_certainty_of_empty _ _ rfl, postInit_tension_of_empty _ _ rfl,
      postInit_tbc _ _, ?_, ?_⟩
    · rw [postInit_eq]
      exact recalcMetrics_coherence _ _
    · show (sunion (alKeys t.certainty_by_context) (alKeys o.certainty_by_context)).foldl _
        (RelationTensor.postInit
          { (RelationTensor.defaults now mid) with
            source := t.source, target := t.target, type := t.type,
            meaning := "Σ(" ++ t.meaning ++ ", " ++ o.meaning ++ ")",
            certainty := (t.certainty + o.certainty) / 2,
            tension := max t.tension o.tension } now).certainty_by_context = _
      rw [postInit_cbc_of_empty _ _ rfl]

lemma merge_WF {t o : RelationTensor} {now : ℚ} {mid : String} {m : RelationTensor}
    (hm : merge_with t o now mid = some m) (ht : WF t) (ho : WF o) : WF m := by
  obtain ⟨hcert, hten, htbc, hcoh, hcbc⟩ := merge_with_facts hm
  obtain ⟨ht1, ht2, _, ht4, _⟩ := ht
  obtain ⟨ho1, ho2, _, ho4, _⟩ := ho
  have h1 : InRange m.certainty := by rw [hcert]; exact InRange_avg ht1 ho1
  have h2 : InRange m.tension := by rw [hten]; exact InRange_max ht2 ho2
  refine ⟨h1, h2, ?_, ?_, ?_⟩
  · rw [hcoh]; exact InRange_coherence h1 h2
  · rw [hcbc]
    refine foldl_alSet_values_range _ ?_ _ _ ?_
    · intro c
      exact InRange_avg (alGetD_range ht4 InRange_zero) (alGetD_range ho4 InRange_zero)
    · intro p hp
      rcases List.mem_singleton.mp hp with rfl
      exact InRange_avg ht1 ho1
  · rw [htbc]
    intro p hp
    exact absurd hp (List.not_mem_nil p)

/-- C3 counterexample: a successful `merge_with` keeps the averaged global
confidence (1/2 here) while the context map it builds has a different mean
(2/5 here) — the mean invariant does not survive merging, because the merged
record never recomputes its metrics after the union fold. -/
theorem merge_breaks_mean_counterexample :
    ((merge_with tMergeA tMergeB 0 "M").map fun m =>
      (m.certainty, ctxMean m.certainty_by_context)) = some (1/2, 2/5) ∧
    (1/2 : ℚ) ≠ 2/5 := by
  constructor
  · norm_num +decide [merge_with, tMergeA, tMergeB, postInit, recalcMetrics, defaults,
      ctxMean, qmax, alKeys, alSet, alGetD, alGet, sunion, sinsert]
  · norm_num

/-- C3 (amended): construction, `activate` and `update_from_context`
recompute the global confidence as the mean of the per-context confidences
and the global tension as the maximum of the per-context tensions, and all
five operations keep every confidence, tension and coherence value in [0,1]
given in-range inputs; `split` re-establishes the mean invariant (under
pairwise-distinct context keys) and copies the parent tension onto a child
with an empty tension map, while `merge_with` leaves the mean invariant
broken (see the counterexample) though its values stay in range and its
tension map is empty. -/
theorem tensor_ops_invariants (t o : RelationTensor) (c vm cid mid : String)
    (ty : Option String) (nc nt now : ℚ) :
    (InvCert (postInit t now) ∧ InvTen (postInit t now) ∧
      (WF t → WF (postInit t now))) ∧
    (InvCert (activate t c now) ∧ InvTen (activate t c now) ∧
      (WF t → WF (activate t c now))) ∧
    (InvCert (update_from_context t c nc nt now) ∧
      InvTen (update_from_context t c nc nt now) ∧
      (WF t → InRange nc → InRange nt → WF (update_from_context t c nc nt now))) ∧
    (((alKeys t.certainty_by_context).Nodup → InvCert t →
        InvCert (split t vm ty now cid).1) ∧
      (split t vm ty now cid).1.tension = t.tension ∧
      (split t vm ty now cid).1.tension_by_context = [] ∧
      (WF t → WF (split t vm ty now cid).1)) ∧
    (∀ m, merge_with t o now mid = some m →
      m.tension_by_context = [] ∧ (WF t → WF o → WF m)) := by
  refine ⟨⟨postInit_invCert t now, postInit_invTen t now, postInit_WF now⟩,
    ⟨activate_invCert t c now, activate_invTen t c now, activate_WF c now⟩,
    ⟨update_invCert t c nc nt now, update_invTen t c nc nt now,
      fun h hnc hnt => update_WF c now h hnc hnt⟩,
    ⟨fun hnd hI => split_invCert t vm ty now cid hnd hI,
      split_child_tension t vm ty now cid,
      split_child_tbc t vm ty now cid,
      split_WF t vm ty now cid⟩,
    fun m hm => ⟨(merge_with_facts hm).2.2.1, fun ht ho => merge_WF hm ht ho⟩⟩

/-- C3 witness: the genesis-seeded record is well-formed with distinct
context keys and satisfies the mean invariant, so the theorem yields
well-formedness of its re-construction and the invariant for its split
child. -/
theorem tensor_ops_invariants_witness :
    WF tMergeA ∧ (alKeys tMergeA.certainty_by_context).Nodup ∧ InvCert tMergeA ∧
      WF (postInit tMergeA 0) ∧ InvCert (split tMergeA "v" none 0 "C").1 := by
  have hwf : WF tMergeA := by
    refine ⟨?_, ?_, ?_, ?_, ?_⟩ <;>
      norm_num +decide [tMergeA, WF, InRange, postInit, recalcMetrics, defaults,
        ctxMean, qmax, List.mem_singleton]
  have hnd : (alKeys tMergeA.certainty_by_context).Nodup := by
    norm_num +decide [tMergeA, postInit, recalcMetrics, defaults, ctxMean, qmax, alKeys]
  have hic : InvCert tMergeA := by
    intro _
    norm_num +decide [tMergeA, postInit, recalcMetrics, defaults, ctxMean, qmax]
  have h := tensor_ops_invariants tMergeA tMergeA "c" "v" "C" "M" none (1/2) 0 0
  exact ⟨hwf, hnd, hic, h.1.2.2 hwf, h.2.2.2.1.1 hnd hic⟩

end ClaimC3

section ClaimC7

open TensorSemanticGraph RelationTensor

lemma add_tensor_registry_keys_mono (g : TensorSemanticGraph) (r : RelationTensor)
    (c : String) (a : Bool) (now : ℚ) (k : String)
    (h : k ∈ alKeys g.tensor_registry) :
    k ∈ alKeys (add_tensor g r c a now).graph.tensor_registry := by
  rw [add_tensor_eq]
  cases mergeMatch (addPrep g r c now) (r.update_from_context c r.certainty 0 now) a with
  | some e =>
    show k ∈ alKeys (mergeInto (addPrep g r c now) e
      (r.update_from_context c r.certainty 0 now) c now).graph.tensor_registry
    rw [mergeInto_registry_keys, addPrep_registry]
    exact h
  | none =>
    show k ∈ alKeys (insertNew (addPrep g r c now)
      (r.update_from_context c r.certainty 0 now) c now).graph.tensor_registry
    rw [insertNew_registry, addPrep_registry, mem_alKeys_alSet]
    exact Or.inr h

lemma add_tensor_queue_mono (g : TensorSemanticGraph) (r : RelationTensor)
    (c : String) (a : Bool) (now : ℚ) (x : ℚ × String × String)
    (h : x ∈ g.dreaming_queue) :
    x ∈ (add_tensor g r c a now).graph.dreaming_queue := by
  rw [add_tensor_eq]
  cases mergeMatch (addPrep g r c now) (r.update_from_context c r.certainty 0 now) a with
  | some e =>
    show x ∈ (mergeInto (addPrep g r c now) e
      (r.update_from_context c r.certainty 0 now) c now).graph.dreaming_queue
    rw [mergeInto_queue, addPrep_queue]
    exact h
  | none =>
    show x ∈ (insertNew (addPrep g r c now)
      (r.update_from_context c r.certainty 0 now) c now).graph.dreaming_queue
    rw [insertNew_queue, addPrep_queue, mem_heappush]
    exact Or.inr h

lemma hasNode_add_tensor (g : TensorSemanticGraph) (r : RelationTensor)
    (c : String) (a : Bool) (now : ℚ) (n : String) :
    hasNode (add_tensor g r c a now).graph n = true ↔
      n = r.source ∨ n = r.target ∨ hasNode g n = true := by
  rw [add_tensor_eq]
  cases mergeMatch (addPrep g r c now) (r.update_from_context c r.certainty 0 now) a with
  | some e =>
    have hnodes : (mergeInto (addPrep g r c now) e
        (r.update_from_context c r.certainty 0 now) c now).graph.nodes
        = (addPrep g r c now).nodes := mergeInto_nodes _ _ _ _ _
    show alHas (mergeInto (addPrep g r c now) e
      (r.update_from_context c r.certainty 0 now) c now).graph.nodes n = true ↔ _
    rw [hnodes]
    exact hasNode_addPrep g r c now n
  | none =>
    have hnodes : (insertNew (addPrep g r c now)
        (r.update_from_context c r.certainty 0 now) c now).graph.nodes
        = (addPrep g r c now).nodes := insertNew_nodes _ _ _ _
    show alHas (insertNew (addPrep g r c now)
      (r.update_from_context c r.certainty 0 now) c now).graph.nodes n = true ↔ _
    rw [hnodes]
    exact hasNode_addPrep g r c now n

lemma add_tensor_edges_shape (g : TensorSemanticGraph) (r : RelationTensor)
    (c : String) (a : Bool) (now : ℚ) :
    ∀ e' ∈ (add_tensor g r c a now).graph.edges,
      (∃ e₁ ∈ g.edges, e'.source = e₁.source ∧ e'.target = e₁.target ∧
        e'.context_id = e₁.context_id) ∨
      (e'.source = r.source ∧ e'.target = r.target ∧ e'.context_id = c) := by
  rw [add_tensor_eq]
  cases mergeMatch (addPrep g r c now) (r.update_from_context c r.certainty 0 now) a with
  | some e =>
    show ∀ e' ∈ (mergeInto (addPrep g r c now) e
        (r.update_from_context c r.certainty 0 now) c now).graph.edges,
      (∃ e₁ ∈ g.edges, e'.source = e₁.source ∧ e'.target = e₁.target ∧
        e'.context_id = e₁.context_id) ∨
      (e'.source = r.source ∧ e'.target = r.target ∧ e'.context_id = c)
    intro e' he'
    rw [mergeInto_edges, addPrep_edges] at he'
    obtain ⟨e₀, he₀, heq⟩ := List.mem_map.mp he'
    subst heq
    left
    refine ⟨e₀, he₀, ?_, ?_, ?_⟩ <;> (split_ifs <;> rfl)
  | none =>
    show ∀ e' ∈ (insertNew (addPrep g r c now)
        (r.update_from_context c r.certainty 0 now) c now).graph.edges,
      (∃ e₁ ∈ g.edges, e'.source = e₁.source ∧ e'.target = e₁.target ∧
        e'.context_id = e₁.context_id) ∨
      (e'.source = r.source ∧ e'.target = r.target ∧ e'.context_id = c)
    intro e' he'
    rw [insertNew_edges, addPrep_edges] at he'
    rcases List.mem_append.mp he' with h | h
    · exact Or.inl ⟨e', h, rfl, rfl, rfl⟩
    · rcases List.mem_singleton.mp h with rfl
      exact Or.inr ⟨update_source r c r.certainty 0 now,
        update_target r c r.certainty 0 now, rfl⟩

lemma fold_nodes_hasNode :
    ∀ (L : List (String × NodeAttrs)) (g₀ : TensorSemanticGraph) (n : String),
      hasNode (L.foldl (fun g p => { g with nodes := alSet g.nodes p.1 p.2 }) g₀) n
          = true ↔
        (∃ p ∈ L, n = p.1) ∨ hasNode g₀ n = true
  | [], g₀, n => by simp
  | p :: L, g₀, n => by
    rw [show (p :: L).foldl (fun g q => { g with nodes := alSet g.nodes q.1 q.2 }) g₀
        = L.foldl (fun g q => { g with nodes := alSet g.nodes q.1 q.2 })
          { g₀ with nodes := alSet g₀.nodes p.1 p.2 } from rfl]
    rw [fold_nodes_hasNode L _ n]
    rw [show (hasNode { g₀ with nodes := alSet g₀.nodes p.1 p.2 } n = true) =
        (n = p.1 ∨ hasNode g₀ n = true) from by
      rw [show hasNode { g₀ with nodes := alSet g₀.nodes p.1 p.2 } n
          = alHas (alSet g₀.nodes p.1 p.2) n from rfl]
      rw [propext (alHas_alSet g₀.nodes p.1 n p.2)]
      rfl]
    constructor
    · rintro (⟨q, hq, hn⟩ | h | h)
      · exact Or.inl ⟨q, List.mem_cons_of_mem _ hq, hn⟩
      · exact Or.inl ⟨p, List.mem_cons_self _ _, h⟩
      · exact Or.inr h
    · rintro (⟨q, hq, hn⟩ | h)
      · rcases List.mem_cons.mp hq with rfl | hq
        · exact Or.inr (Or.inl hn)
        · exact Or.inl ⟨q, hq, hn⟩
      · exact Or.inr (Or.inr h)

lemma fold_add_hasNode (now : ℚ) :
    ∀ (L : List RelationTensor) (g₀ : TensorSemanticGraph) (n : String),
      hasNode (L.foldl (fun g rt =>
          (add_tensor g rt "restored_from_yaml" true now).graph) g₀) n = true ↔
        (∃ t ∈ L, n = t.source ∨ n = t.target) ∨ hasNode g₀ n = true
  | [], g₀, n => by simp
  | rt :: L, g₀, n => by
    rw [show (rt :: L).foldl (fun g r =>
          (add_tensor g r "restored_from_yaml" true now).graph) g₀
        = L.foldl (fun g r => (add_tensor g r "restored_from_yaml" true now).graph)
          (add_tensor g₀ rt "restored_from_yaml" true now).graph from rfl]
    rw [fold_add_hasNode now L _ n, hasNode_add_tensor]
    constructor
    · rintro (⟨t, ht, hst⟩ | h | h | h)
      · exact Or.inl ⟨t, List.mem_cons_of_mem _ ht, hst⟩
      · exact Or.inl ⟨rt, List.mem_cons_self _ _, Or.inl h⟩
      · exact Or.inl ⟨rt, List.mem_cons_self _ _, Or.inr h⟩
      · exact Or.inr h
    · rintro (⟨t, ht, hst⟩ | h)
      · rcases List.mem_cons.mp ht with rfl | ht
        · rcases hst with h | h
          · exact Or.inr (Or.inl h)
          · exact Or.inr (Or.inr (Or.inl h))
        · exact Or.inl ⟨t, ht, hst⟩
      · exact Or.inr (Or.inr (Or.inr h))

/-- C7 counterexample: importing an empty document into a non-empty graph
clears the adjacency (nodes and edges) but keeps the stale tensor registry
and dreaming queue, so the state after an import does not reflect only the
document that was imported. -/
theorem load_retains_stale_state_counterexample :
    (load_from_yaml gOne {} 0).edges = [] ∧
    (load_from_yaml gOne {} 0).nodes = [] ∧
    alKeys (load_from_yaml gOne {} 0).tensor_registry = ["E1"] ∧
    (load_from_yaml gOne {} 0).dreaming_queue ≠ [] := by
  have hreg : (load_from_yaml gOne {} 0).tensor_registry = gOne.tensor_registry := rfl
  have hq : (load_from_yaml gOne {} 0).dreaming_queue = gOne.dreaming_queue := rfl
  refine ⟨rfl, rfl, ?_, ?_⟩
  · rw [hreg]
    norm_num +decide [gOne, addR, mkRel, add_tensor, ensureNode,
      markConflicts, registerContext, mergeMatch, mergeInto, insertNew, add_node,
      postInit, activate, recalcMetrics, defaults, update_from_context, alGetD, alGet,
      alSet, alHas, alUpd, alKeys, ctxMean, qmax, sinsert, hasNode, hasEdge,
      edgesBetween, heappush, queueLt]
  · rw [hq]
    norm_num +decide [gOne, addR, mkRel, add_tensor, ensureNode,
      markConflicts, registerContext, mergeMatch, mergeInto, insertNew, add_node,
      postInit, activate, recalcMetrics, defaults, update_from_context, alGetD, alGet,
      alSet, alHas, alUpd, alKeys, ctxMean, qmax, sinsert, hasNode, hasEdge,
      edgesBetween, heappush, queueLt]

/-- C7 (amended): `load_from_yaml` clears only the adjacency and then replays
node insertion followed by `add_tensor` (merge and conflict rules included)
for every serialized edge under the `restored_from_yaml` context id:
afterwards a node exists iff the document mentions it, and every edge carries the
restored context id and endpoints of some document edge — but the tensor
registry keys and the dreaming queue of the pre-import graph survive
(see the counterexample). -/
theorem load_from_yaml_spec (g : TensorSemanticGraph) (doc : YamlDoc) (now : ℚ) :
    (∀ k, k ∈ alKeys g.tensor_registry →
        k ∈ alKeys (load_from_yaml g doc now).tensor_registry) ∧
    (∀ x, x ∈ g.dreaming_queue → x ∈ (load_from_yaml g doc now).dreaming_queue) ∧
    (∀ n, hasNode (load_from_yaml g doc now) n = true ↔
        (∃ p ∈ doc.nodes, n = p.1) ∨ ∃ t ∈ doc.edges, n = t.source ∨ n = t.target) ∧
    (∀ e ∈ (load_from_yaml g doc now).edges,
        e.context_id = "restored_from_yaml" ∧
        ∃ t ∈ doc.edges, e.source = t.source ∧ e.target = t.target) := by
  have hload : load_from_yaml g doc now =
      doc.edges.foldl (fun g' rt => (add_tensor g' rt "restored_from_yaml" true now).graph)
        (doc.nodes.foldl (fun g' p => { g' with nodes := alSet g'.nodes p.1 p.2 })
          { g with nodes := [], edges := [] }) := rfl
  refine ⟨?_, ?_, ?_, ?_⟩
  · intro k hk
    rw [hload]
    refine foldl_induction _ _ _
      (fun g' : TensorSemanticGraph => k ∈ alKeys g'.tensor_registry) ?_ ?_
    · have h1 : (doc.nodes.foldl
          (fun (g' : TensorSemanticGraph) p => { g' with nodes := alSet g'.nodes p.1 p.2 })
          { g with nodes := [], edges := [] }).tensor_registry = g.tensor_registry :=
        foldl_induction _ _ _
          (fun g' : TensorSemanticGraph => g'.tensor_registry = g.tensor_registry) rfl
          (fun acc p _ h => h)
      show k ∈ alKeys (doc.nodes.foldl
        (fun (g' : TensorSemanticGraph) p => { g' with nodes := alSet g'.nodes p.1 p.2 })
        { g with nodes := [], edges := [] }).tensor_registry
      rw [h1]
      exact hk
    · intro acc rt _ h
      exact add_tensor_registry_keys_mono acc rt _ true now k h
  · intro x hx
    rw [hload]
    refine foldl_induction _ _ _
      (fun g' : TensorSemanticGraph => x ∈ g'.dreaming_queue) ?_ ?_
    · have h1 : (doc.nodes.foldl
          (fun (g' : TensorSemanticGraph) p => { g' with nodes := alSet g'.nodes p.1 p.2 })
          { g with nodes := [], edges := [] }).dreaming_queue = g.dreaming_queue :=
        foldl_induction _ _ _
          (fun g' : TensorSemanticGraph => g'.dreaming_queue = g.dreaming_queue) rfl
          (fun acc p _ h => h)
      show x ∈ (doc.nodes.foldl
        (fun (g' : TensorSemanticGraph) p => { g' with nodes := alSet g'.nodes p.1 p.2 })
        { g with nodes := [], edges := [] }).dreaming_queue
      rw [h1]
      exact hx
    · intro acc rt _ h
      exact add_tensor_queue_mono acc rt _ true now x h
  · intro n
    rw [hload, fold_add_hasNode, fold_nodes_hasNode]
    rw [show hasNode { g with nodes := ([] : List (String × NodeAttrs)), edges := [] } n
        = false from rfl]
    simp only [Bool.false_eq_true, or_false]
    exact or_comm
  · rw [hload]
    refine foldl_induction _ _ _
      (fun g' : TensorSemanticGraph => ∀ e ∈ g'.edges,
        e.context_id = "restored_from_yaml" ∧
        ∃ t ∈ doc.edges, e.source = t.source ∧ e.target = t.target) ?_ ?_
    · have h1 : (doc.nodes.foldl
          (fun (g' : TensorSemanticGraph) p => { g' with nodes := alSet g'.nodes p.1 p.2 })
          { g with nodes := [], edges := [] }).edges = [] :=
        foldl_induction _ _ _
          (fun g' : TensorSemanticGraph => g'.edges = []) rfl
          (fun acc p _ h => h)
      intro e he
      rw [h1] at he
      exact absurd he (List.not_mem_nil e)
    · intro acc rt hrt h e' he'
      rcases add_tensor_edges_shape acc rt "restored_from_yaml" true now e' he' with
        ⟨e₀, he₀, hs, ht', hc⟩ | ⟨hs, ht', hc⟩
      · obtain ⟨hctx, t, htd, hts, htt⟩ := h e₀ he₀
        exact ⟨hc.trans hctx, t, htd, hs.trans hts, ht'.trans htt⟩
      · exact ⟨hc, rt, hrt, hs, ht'⟩

/-- C7 witness: the pre-import registry key of the single-edge graph
survives the import of an empty document. -/
theorem load_from_yaml_spec_witness :
    "E1" ∈ alKeys gOne.tensor_registry ∧
      "E1" ∈ alKeys (load_from_yaml gOne {} 0).tensor_registry := by
  have h1 : "E1" ∈ alKeys gOne.tensor_registry := by
    norm_num +decide [gOne, addR, mkRel, add_tensor, ensureNode, markConflicts,
      registerContext, mergeMatch, mergeInto, insertNew, add_node, postInit, activate,
      recalcMetrics, defaults, update_from_context, alGetD, alGet, alSet, alHas, alUpd,
      alKeys, ctxMean, qmax, sinsert, hasNode, hasEdge, edgesBetween, heappush, queueLt]
  exact ⟨h1, (load_from_yaml_spec gOne {} 0).1 "E1" h1⟩

end ClaimC7

section ClaimC5

open TensorSemanticGraph RQLParser

/-- C5 counterexample: in the §8 scenario graph the parsed query finds the
single path A→B→C and accepts it at the default threshold, but its mean
confidence is 1809/2000 = 0.9045, not 0.9 — `add_tensor` has already folded
each 0.9 insertion through `update_from_context`, nudging the stored
confidences. -/
theorem path_query_mean_counterexample :
    parse "(QUERY :from A :to C :max_length 3)" = some qAC ∧
    ((execute_path_query gPath qAC).map
      (fun r => (r.paths_found, r.paths.map fun p => (p.path, p.avg_certainty),
        r.coherence_threshold))) =
      some (1, [(["A", "B", "C"], 1809/2000)], 1/2) ∧
    (1809/2000 : ℚ) ≠ 9/10 := by
  refine ⟨?_, ?_, by norm_num⟩
  · norm_num +decide [parse, tokenize, tokStep, paramLoop, stripQuotes, convertParams,
      getStr, getStrD, getIntD, getRatD, splitParam, pvalToInt, pvalToRat, parseDec,
      pyStrip, pyStartsWith, pyEndsWith, pyDrop, pyDropRight, pyToInt, pySplit,
      digitsToNat, splitLoop, squote, alGet, alSet, qAC]
  · norm_num +decide [execute_path_query, find_paths, findPathsAux, gPath, qAC, addR,
      mkRel, add_tensor, ensureNode, markConflicts, registerContext, mergeMatch,
      mergeInto, insertNew, add_node, RelationTensor.postInit, RelationTensor.activate,
      RelationTensor.recalcMetrics, RelationTensor.defaults,
      RelationTensor.update_from_context, alGetD, alGet, alSet, alHas, alUpd, ctxMean,
      qmax, sinsert, hasNode, hasEdge, edgesBetween, heappush, queueLt]
    norm_num +decide [List.filterMap]

/-- C5 (amended): a successful `QUERY` execution reports its endpoints and
threshold, returns at most 5 paths — the prefix, in discovery order, of the
enumerated simple paths whose mean edge confidence reaches `min_coherence` —
each returned entry carrying its hop list (one of the enumerated paths), the
mean confidence of those hops, and the node display list; `paths_found`
counts all accepted paths, not only the returned ones.  On the §8 scenario
the single accepted path's mean confidence is 1809/2000, not 0.9 (see the
counterexample). -/
theorem execute_path_query_spec (g : TensorSemanticGraph) (q : RQLQuery)
    (res : PathResult) (h : execute_path_query g q = some res) :
    ∃ s t, q.source = some s ∧ q.target = some t ∧ ¬(s = "" ∨ t = "") ∧
      res.source = s ∧ res.target = t ∧
      res.coherence_threshold = q.min_coherence ∧
      res.paths.length ≤ 5 ∧
      (∀ p ∈ res.paths,
        p.avg_certainty ≥ q.min_coherence ∧
        p.edges ∈ find_paths g s t q.max_length.toNat ∧
        p.avg_certainty = (if p.edges.isEmpty then 0
          else (p.edges.map PathEdge.certainty).sum / p.edges.length) ∧
        p.path = (p.edges.map PathEdge.subject) ++
          (match p.edges.getLast? with | some e => [e.object] | none => [])) ∧
      res.paths = ((find_paths g s t q.max_length.toNat).filterMap fun path =>
        let avg := if path.isEmpty then (0 : ℚ)
          else (path.map PathEdge.certainty).sum / path.length
        if avg ≥ q.min_coherence then
          some ({ path := (path.map PathEdge.subject) ++
                   (match path.getLast? with | some e => [e.object] | none => []),
                  edges := path, avg_certainty := avg } : FoundPath)
        else none).take 5 ∧
      res.paths_found = ((find_paths g s t q.max_length.toNat).filterMap fun path =>
        let avg := if path.isEmpty then (0 : ℚ)
          else (path.map PathEdge.certainty).sum / path.length
        if avg ≥ q.min_coherence then
          some ({ path := (path.map PathEdge.subject) ++
                   (match path.getLast? with | some e => [e.object] | none => []),
                  edges := path, avg_certainty := avg } : FoundPath)
        else none).length := by
  cases hqs : q.source with
  | none =>
    simp only [execute_path_query, hqs] at h
    exact Option.noConfusion h
  | some s =>
    cases hqt : q.target with
    | none =>
      simp only [execute_path_query, hqs, hqt] at h
      exact Option.noConfusion h
    | some t =>
      simp only [execute_path_query, hqs, hqt] at h
      by_cases hempty : s = "" ∨ t = ""
      · rw [if_pos hempty] at h
        exact absurd h (by simp)
      · rw [if_neg hempty] at h
        simp only [Option.some.injEq] at h
        subst h
        refine ⟨s, t, rfl, rfl, hempty, rfl, rfl, rfl, ?_, ?_, rfl, rfl⟩
        · exact List.length_take_le _ _
        · intro p hp
          have hp' := List.take_subset 5 _ hp
          obtain ⟨path, hpath, hf⟩ := List.mem_filterMap.mp hp'
          by_cases havg : (if path.isEmpty then (0 : ℚ)
              else (path.map PathEdge.certainty).sum / path.length) ≥ q.min_coherence
          · rw [if_pos havg] at hf
            simp only [Option.some.injEq] at hf
            subst hf
            exact ⟨havg, hpath, rfl, rfl⟩
          · rw [if_neg havg] at hf
            exact absurd hf (by simp)

/-- C5 witness: the scenario execution satisfies the amended description —
a successful result with at most 5 paths, all at or above the threshold. -/
theorem execute_path_query_spec_witness :
    ∃ res, execute_path_query gPath qAC = some res ∧
      res.paths.length ≤ 5 ∧ ∀ p ∈ res.paths, p.avg_certainty ≥ qAC.min_coherence := by
  have hs : (execute_path_query gPath qAC).isSome = true := by
    norm_num +decide [execute_path_query, find_paths, findPathsAux, gPath, qAC, addR,
      mkRel, add_tensor, ensureNode, markConflicts, registerContext, mergeMatch,
      mergeInto, insertNew, add_node, RelationTensor.postInit, RelationTensor.activate,
      RelationTensor.recalcMetrics, RelationTensor.defaults,
      RelationTensor.update_from_context, alGetD, alGet, alSet, alHas, alUpd, ctxMean,
      qmax, sinsert, hasNode, hasEdge, edgesBetween, heappush, queueLt]
  obtain ⟨res, hres⟩ := Option.isSome_iff_exists.mp hs
  obtain ⟨s, t, _, _, _, _, _, _, hlen, hall, _, _⟩ :=
    execute_path_query_spec gPath qAC res hres
  exact ⟨res, hres, hlen, fun p hp => (hall p hp).1⟩

end ClaimC5

section DreamStepLemmas

open TensorSemanticGraph DreamingEngine RelationTensor

lemma mkSuggestion_source (now : ℚ) (src tgt m : String) (cert ten : ℚ) :
    (mkSuggestion now src tgt m cert ten).source = src := by
  rw [mkSuggestion, postInit_source]

lemma mkSuggestion_target (now : ℚ) (src tgt m : String) (cert ten : ℚ) :
    (mkSuggestion now src tgt m cert ten).target = tgt := by
  rw [mkSuggestion, postInit_target]

lemma mkSuggestion_certainty (now : ℚ) (src tgt m : String) (cert ten : ℚ) :
    (mkSuggestion now src tgt m cert ten).certainty = cert := by
  rw [mkSuggestion]
  exact postInit_certainty_of_empty _ _ rfl

lemma mkSuggestion_tension (now : ℚ) (src tgt m : String) (cert ten : ℚ) :
    (mkSuggestion now src tgt m cert ten).tension = ten := by
  rw [mkSuggestion]
  exact postInit_tension_of_empty _ _ rfl

lemma sinter_nil_right (a : List String) : sinter a [] = [] := by
  simp [sinter]

lemma jaccard_zero_of_empty {g : TensorSemanticGraph} {u v : String}
    (h : ((sunion (successors g u) (predecessors g u)).isEmpty
        || (sunion (successors g v) (predecessors g v)).isEmpty) = true) :
    jaccardSimilarity g u v = 0 := by
  rw [Bool.or_eq_true] at h
  rcases h with he | he
  · have hnil : sunion (successors g u) (predecessors g u) = [] := by
      rwa [List.isEmpty_iff] at he
    simp only [jaccardSimilarity, hnil]
    simp [sinter, zero_div]
  · have hnil : sunion (successors g v) (predecessors g v) = [] := by
      rwa [List.isEmpty_iff] at he
    simp only [jaccardSimilarity, hnil]
    simp [sinter_nil_right, zero_div]

/-- Exact case split of the engine-level neighbour-similarity step: it either
leaves the state unchanged (and its emission condition fails) or appends one
suggestion (and its condition — cap, fresh forward pair, no *forward* edge,
similarity above 7/20 — holds). -/
lemma strat2Step_cases (g : TensorSemanticGraph) (maxS : Nat) (now : ℚ)
    (st : DreamState) (p : String × String) :
    (strat2Step g maxS now st p = st ∧
      ¬(st.suggestions.length < maxS ∧ (p.1, p.2) ∉ st.processed ∧
        hasEdge g p.1 p.2 = false ∧ jaccardSimilarity g p.1 p.2 > 7/20)) ∨
    (strat2Step g maxS now st p =
      { suggestions := st.suggestions ++
          [mkSuggestion now p.1 p.2 "Сновидение: сходство соседей (J=…)"
            (jaccardSimilarity g p.1 p.2) (1/20)],
        processed := st.processed ++ [(p.1, p.2)] } ∧
      (st.suggestions.length < maxS ∧ (p.1, p.2) ∉ st.processed ∧
        hasEdge g p.1 p.2 = false ∧ jaccardSimilarity g p.1 p.2 > 7/20)) := by
  simp only [strat2Step]
  by_cases h1 : st.suggestions.length ≥ maxS
  · rw [if_pos h1]
    exact Or.inl ⟨rfl, fun hd => absurd hd.1 (not_lt.mpr h1)⟩
  · rw [if_neg h1]
    by_cases h2 : (p.1, p.2) ∈ st.processed ∨ hasEdge g p.1 p.2 = true
    · rw [if_pos h2]
      refine Or.inl ⟨rfl, fun hd => ?_⟩
      rcases h2 with hm | he
      · exact hd.2.1 hm
      · rw [hd.2.2.1] at he
        exact absurd he (by simp)
    · rw [if_neg h2]
      have hmem : (p.1, p.2) ∉ st.processed := fun hm => h2 (Or.inl hm)
      have hedge : hasEdge g p.1 p.2 = false := by
        cases hE : hasEdge g p.1 p.2
        · rfl
        · exact absurd (Or.inr hE) h2
      by_cases h3 : jaccardSimilarity g p.1 p.2 > 7/20
      · rw [if_pos h3]
        exact Or.inr ⟨rfl, not_le.mp h1, hmem, hedge, h3⟩
      · rw [if_neg h3]
        exact Or.inl ⟨rfl, fun hd => h3 hd.2.2.2⟩

/-- Exact case split of the graph-level neighbour-similarity step
(`dreaming_cycle`'s loop body): its emission condition is cap, fresh pair, no
edge in *either* direction and similarity above 3/10; the emitted record
carries the similarity as its confidence and tension 1/10. -/
lemma dreamStep_cases (g : TensorSemanticGraph) (maxS : Nat) (now : ℚ)
    (st : DreamState) (item : ℚ × String × String) :
    ((dreamStep g maxS now st item).suggestions = st.suggestions ∧
      ¬(st.suggestions.length < maxS ∧ (item.2.1, item.2.2) ∉ st.processed ∧
        hasEdge g item.2.1 item.2.2 = false ∧ hasEdge g item.2.2 item.2.1 = false ∧
        jaccardSimilarity g item.2.1 item.2.2 > 3/10)) ∨
    (∃ s, (dreamStep g maxS now st item).suggestions = st.suggestions ++ [s] ∧
      s.source = item.2.1 ∧ s.target = item.2.2 ∧
      s.certainty = jaccardSimilarity g item.2.1 item.2.2 ∧ s.tension = 1/10 ∧
      (st.suggestions.length < maxS ∧ (item.2.1, item.2.2) ∉ st.processed ∧
        hasEdge g item.2.1 item.2.2 = false ∧ hasEdge g item.2.2 item.2.1 = false ∧
        jaccardSimilarity g item.2.1 item.2.2 > 3/10)) := by
  simp only [dreamStep]
  by_cases h1 : st.suggestions.length ≥ maxS
  · rw [if_pos h1]
    exact Or.inl ⟨rfl, fun hd => absurd hd.1 (not_lt.mpr h1)⟩
  · rw [if_neg h1]
    by_cases h2 : (item.2.1, item.2.2) ∈ st.processed
    · rw [if_pos h2]
      exact Or.inl ⟨rfl, fun hd => hd.2.1 h2⟩
    · rw [if_neg h2]
      by_cases h3 : (hasEdge g item.2.1 item.2.2 || hasEdge g item.2.2 item.2.1) = true
      · rw [if_pos h3]
        refine Or.inl ⟨rfl, fun hd => ?_⟩
        rw [hd.2.2.1, hd.2.2.2.1] at h3
        exact absurd h3 (by simp)
      · rw [if_neg h3]
        have hf : hasEdge g item.2.1 item.2.2 = false := by
          cases hE : hasEdge g item.2.1 item.2.2
          · rfl
          · exact absurd (by rw [hE]; exact Bool.true_or _) h3
        have hb : hasEdge g item.2.2 item.2.1 = false := by
          cases hE : hasEdge g item.2.2 item.2.1
          · rfl
          · exact absurd (by rw [hE]; exact Bool.or_true _) h3
        by_cases h4 : ((sunion (successors g item.2.1) (predecessors g item.2.1)).isEmpty
            || (sunion (successors g item.2.2) (predecessors g item.2.2)).isEmpty) = true
        · rw [if_pos h4]
          refine Or.inl ⟨rfl, fun hd => ?_⟩
          rw [jaccard_zero_of_empty h4] at hd
          exact absurd hd.2.2.2.2 (by norm_num)
        · rw [if_neg h4]
          have hu : (sunion (successors g item.2.1) (predecessors g item.2.1)).isEmpty
              = false := by
            cases hE : (sunion (successors g item.2.1) (predecessors g item.2.1)).isEmpty
            · rfl
            · exact absurd (by rw [hE]; exact Bool.true_or _) h4
          have hJ : jaccardSimilarity g item.2.1 item.2.2 =
              (if (sunion (sunion (successors g item.2.1) (predecessors g item.2.1))
                    (sunion (successors g item.2.2) (predecessors g item.2.2))).length > 0 then
                ((sinter (sunion (successors g item.2.1) (predecessors g item.2.1))
                    (sunion (successors g item.2.2) (predecessors g item.2.2))).length : ℚ) /
                  ((sunion (sunion (successors g item.2.1) (predecessors g item.2.1))
                    (sunion (successors g item.2.2) (predecessors g item.2.2))).length : ℚ)
              else 0) := by
            simp only [jaccardSimilarity, hu, Bool.false_and]
            rw [if_neg Bool.false_ne_true]
          by_cases h5 : jaccardSimilarity g item.2.1 item.2.2 > 3/10
          · have h5' := h5
            rw [hJ] at h5'
            rw [if_pos h5']
            refine Or.inr ⟨_, rfl, ?_, ?_, ?_, ?_, not_le.mp h1, h2, hf, hb, h5⟩
            · exact postInit_source _ _
            · exact postInit_target _ _
            · rw [hJ]
              exact postInit_certainty_of_empty _ _ rfl
            · exact postInit_tension_of_empty _ _ rfl
          · have h5' := h5
            rw [hJ] at h5'
            rw [if_neg h5']
            exact Or.inl ⟨rfl, fun hd => h5 hd.2.2.2.2⟩

lemma strat2Step_sound (g : TensorSemanticGraph) (maxS : Nat) (now : ℚ)
    (st : DreamState) (p : String × String)
    (h : ∀ s ∈ st.suggestions, hasEdge g s.source s.target = false) :
    ∀ s ∈ (strat2Step g maxS now st p).suggestions,
      hasEdge g s.source s.target = false := by
  rcases strat2Step_cases g maxS now st p with ⟨heq, _⟩ | ⟨heq, hcond⟩
  · rw [heq]
    exact h
  · rw [heq]
    intro s hs
    rcases List.mem_append.mp hs with hold | hnew
    · exact h s hold
    · rcases List.mem_singleton.mp hnew with rfl
      rw [mkSuggestion_source, mkSuggestion_target]
      exact hcond.2.2.1

lemma dreamStep_sound (g : TensorSemanticGraph) (maxS : Nat) (now : ℚ)
    (st : DreamState) (item : ℚ × String × String)
    (h : ∀ s ∈ st.suggestions, hasEdge g s.source s.target = false ∧
      hasEdge g s.target s.source = false) :
    ∀ s ∈ (dreamStep g maxS now st item).suggestions,
      hasEdge g s.source s.target = false ∧ hasEdge g s.target s.source = false := by
  rcases dreamStep_cases g maxS now st item with ⟨heq, _⟩ | ⟨s₀, heq, hsrc, htgt, _, _, hcond⟩
  · rw [heq]
    exact h
  · rw [heq]
    intro s hs
    rcases List.mem_append.mp hs with hold | hnew
    · exact h s hold
    · rcases List.mem_singleton.mp hnew with rfl
      rw [hsrc, htgt]
      exact ⟨hcond.2.2.1, hcond.2.2.2.1⟩

lemma strat1Step_sound (g : TensorSemanticGraph) (maxS : Nat) (now : ℚ)
    (broker : String) (st : DreamState) (p : String × String)
    (h : ∀ s ∈ st.suggestions, hasEdge g s.source s.target = false) :
    ∀ s ∈ (strat1Step g maxS now broker st p).suggestions,
      hasEdge g s.source s.target = false := by
  simp only [strat1Step]
  split_ifs with h1 h2 h3 h4
  · exact h
  · exact h
  · exact h
  · intro s hs
    rcases List.mem_append.mp hs with hold | hnew
    · exact h s hold
    · rcases List.mem_singleton.mp hnew with rfl
      rw [mkSuggestion_source, mkSuggestion_target]
      cases hE : hasEdge g p.1 p.2
      · rfl
      · exact absurd (by rw [hE]; exact Bool.true_or _) h3
  · exact h

lemma findIncompletePaths_no_edge (g : TensorSemanticGraph) :
    ∀ c ∈ findIncompletePaths g, hasEdge g c.1 c.2.1 = false := by
  intro c hc
  simp only [findIncompletePaths] at hc
  obtain ⟨start, hstart, hc⟩ := List.mem_flatMap.mp hc
  obtain ⟨mid, hmid, hc⟩ := List.mem_flatMap.mp hc
  obtain ⟨e, he, hf⟩ := List.mem_filterMap.mp hc
  split_ifs at hf with h1 h2
  simp only [Option.some.injEq] at hf
  subst hf
  exact h1.2

lemma strat3Step_sound (g : TensorSemanticGraph) (maxS : Nat) (now : ℚ)
    (st : DreamState) (c : String × String × ℚ)
    (hc : hasEdge g c.1 c.2.1 = false)
    (h : ∀ s ∈ st.suggestions, hasEdge g s.source s.target = false) :
    ∀ s ∈ (strat3Step maxS now st c).suggestions,
      hasEdge g s.source s.target = false := by
  simp only [strat3Step]
  split_ifs with h1 h2
  · exact h
  · exact h
  · intro s hs
    rcases List.mem_append.mp hs with hold | hnew
    · exact h s hold
    · rcases List.mem_singleton.mp hnew with rfl
      rw [mkSuggestion_source, mkSuggestion_target]
      exact hc

lemma strat1Fold_sound (g : TensorSemanticGraph) (maxS : Nat) (now : ℚ)
    (st₀ : DreamState)
    (h : ∀ s ∈ st₀.suggestions, hasEdge g s.source s.target = false) :
    ∀ s ∈ ((nodeNames g).foldl
        (fun st broker =>
          if (successors g broker).length < 2 then st
          else (orderedPairs (successors g broker)).foldl (strat1Step g maxS now broker) st)
        st₀).suggestions, hasEdge g s.source s.target = false :=
  foldl_induction _ _ _
    (fun st : DreamState => ∀ s ∈ st.suggestions, hasEdge g s.source s.target = false) h
    (fun acc broker _ hacc => by
      split_ifs
      · exact hacc
      · exact foldl_induction _ _ _
          (fun st : DreamState => ∀ s ∈ st.suggestions, hasEdge g s.source s.target = false)
          hacc (fun acc2 p _ hacc2 => strat1Step_sound g maxS now broker acc2 p hacc2))

lemma strat2Stage_sound (g : TensorSemanticGraph) (maxS : Nat) (now : ℚ)
    (st₀ : DreamState)
    (h : ∀ s ∈ st₀.suggestions, hasEdge g s.source s.target = false) :
    ∀ s ∈ (if st₀.suggestions.length < maxS then
        (orderedPairs (nodeNames g)).foldl (strat2Step g maxS now) st₀
      else st₀).suggestions, hasEdge g s.source s.target = false := by
  split_ifs
  · exact foldl_induction _ _ _
      (fun st : DreamState => ∀ s ∈ st.suggestions, hasEdge g s.source s.target = false)
      h (fun acc p _ hacc => strat2Step_sound g maxS now acc p hacc)
  · exact h

lemma strat3Stage_sound (g : TensorSemanticGraph) (maxS : Nat) (now : ℚ)
    (st₀ : DreamState)
    (h : ∀ s ∈ st₀.suggestions, hasEdge g s.source s.target = false) :
    ∀ s ∈ (if st₀.suggestions.length < maxS then
        (findIncompletePaths g).foldl (strat3Step maxS now) st₀
      else st₀).suggestions, hasEdge g s.source s.target = false := by
  split_ifs
  · exact foldl_induction _ _ _
      (fun st : DreamState => ∀ s ∈ st.suggestions, hasEdge g s.source s.target = false)
      h (fun acc c hcm hacc =>
        strat3Step_sound g maxS now acc c (findIncompletePaths_no_edge g c hcm) hacc)
  · exact h

end DreamStepLemmas

section ClaimC8

open TensorSemanticGraph DreamingEngine RelationTensor

/-- C8 counterexample: the pair (a, b) of the gThird graph has Jaccard
similarity exactly 1/3 — above 0.3 but not above 0.35 — and the engine-level
strategy (whose threshold the claim puts at 0.3) does not emit it: the
engine's suggestions are only the two path-completion pairs.  The thresholds
are the other way round: the engine requires > 0.35, the graph-level cycle
> 0.3. -/
theorem jaccard_threshold_counterexample :
    jaccardSimilarity gThird "a" "b" = 1/3 ∧
    ((1/3 : ℚ) > 3/10 ∧ ¬((1/3 : ℚ) > 7/20)) ∧
    ((generate_suggestions gThird 10 0).map fun s => (s.source, s.target)) =
      [("x", "y"), ("x", "z")] := by
  refine ⟨?_, ⟨by norm_num, by norm_num⟩, ?_⟩
  · norm_num +decide [jaccardSimilarity, gThird, addR, mkRel, ensureNode, markConflicts,
      registerContext, mergeMatch, mergeInto, insertNew, add_tensor, add_node,
      RelationTensor.postInit, RelationTensor.activate, RelationTensor.recalcMetrics,
      RelationTensor.defaults, RelationTensor.update_from_context, alGetD, alGet, alSet,
      alHas, alUpd, ctxMean, qmax, sinsert, sunion, sinter, slist, hasNode, hasEdge,
      edgesBetween, successors, predecessors, degree, nodeNames, heappush, queueLt]
  · norm_num +decide [generate_suggestions, gThird, addR, mkRel, ensureNode,
      markConflicts, registerContext, mergeMatch, mergeInto, insertNew, strat1Step,
      strat2Step, strat3Step, mkSuggestion, calcStructuralHole, jaccardSimilarity,
      findIncompletePaths, orderedPairs, add_tensor, add_node, RelationTensor.postInit,
      RelationTensor.activate, RelationTensor.recalcMetrics, RelationTensor.defaults,
      RelationTensor.update_from_context, alGetD, alGet, alSet, alHas, alUpd, ctxMean,
      qmax, sinsert, sunion, sinter, slist, hasNode, hasEdge, edgesBetween, successors,
      predecessors, degree, nodeNames, heappush, queueLt]

/-- C8 (amended): each neighbour-similarity step emits exactly when its
capacity, freshness, edge and threshold conditions hold — the engine-level
step requires similarity above 7/20 = 0.35 (checking only the forward edge)
and stamps tension 1/20 = 0.05, while the graph-level `dreaming_cycle` step
requires similarity above 3/10 = 0.3 (checking both edge directions) and
stamps tension 1/10 = 0.1; both set the suggestion's confidence to the
Jaccard similarity of the unions of predecessors and successors. -/
theorem neighbor_similarity_spec (g : TensorSemanticGraph) (maxS : Nat) (now : ℚ)
    (st : DreamState) (p : String × String) (item : ℚ × String × String) :
    (((strat2Step g maxS now st p).suggestions = st.suggestions ∧
        ¬(st.suggestions.length < maxS ∧ (p.1, p.2) ∉ st.processed ∧
          hasEdge g p.1 p.2 = false ∧ jaccardSimilarity g p.1 p.2 > 7/20)) ∨
      (∃ s, (strat2Step g maxS now st p).suggestions = st.suggestions ++ [s] ∧
        s.source = p.1 ∧ s.target = p.2 ∧
        s.certainty = jaccardSimilarity g p.1 p.2 ∧ s.tension = 1/20 ∧
        (st.suggestions.length < maxS ∧ (p.1, p.2) ∉ st.processed ∧
          hasEdge g p.1 p.2 = false ∧ jaccardSimilarity g p.1 p.2 > 7/20))) ∧
    (((dreamStep g maxS now st item).suggestions = st.suggestions ∧
        ¬(st.suggestions.length < maxS ∧ (item.2.1, item.2.2) ∉ st.processed ∧
          hasEdge g item.2.1 item.2.2 = false ∧ hasEdge g item.2.2 item.2.1 = false ∧
          jaccardSimilarity g item.2.1 item.2.2 > 3/10)) ∨
      (∃ s, (dreamStep g maxS now st item).suggestions = st.suggestions ++ [s] ∧
        s.source = item.2.1 ∧ s.target = item.2.2 ∧
        s.certainty = jaccardSimilarity g item.2.1 item.2.2 ∧ s.tension = 1/10 ∧
        (st.suggestions.length < maxS ∧ (item.2.1, item.2.2) ∉ st.processed ∧
          hasEdge g item.2.1 item.2.2 = false ∧ hasEdge g item.2.2 item.2.1 = false ∧
          jaccardSimilarity g item.2.1 item.2.2 > 3/10))) := by
  constructor
  · rcases strat2Step_cases g maxS now st p with ⟨heq, hn⟩ | ⟨heq, hc⟩
    · exact Or.inl ⟨by rw [heq], hn⟩
    · exact Or.inr ⟨_, by rw [heq], mkSuggestion_source _ _ _ _ _ _,
        mkSuggestion_target _ _ _ _ _ _, mkSuggestion_certainty _ _ _ _ _ _,
        mkSuggestion_tension _ _ _ _ _ _, hc⟩
  · exact dreamStep_cases g maxS now st item

/-- C8 witness: at similarity exactly 1/3 the engine-level step stays silent
on a fresh pair with no forward edge — 1/3 does not exceed 7/20. -/
theorem neighbor_similarity_spec_witness :
    jaccardSimilarity gThird "a" "b" = 1/3 ∧
    (strat2Step gThird 10 0 { processed := [], suggestions := [] } ("a", "b")).suggestions
      = [] := by
  have hJ : jaccardSimilarity gThird "a" "b" = 1/3 := by
    norm_num +decide [jaccardSimilarity, gThird, addR, mkRel, ensureNode, markConflicts,
      registerContext, mergeMatch, mergeInto, insertNew, add_tensor, add_node,
      RelationTensor.postInit, RelationTensor.activate, RelationTensor.recalcMetrics,
      RelationTensor.defaults, RelationTensor.update_from_context, alGetD, alGet, alSet,
      alHas, alUpd, ctxMean, qmax, sinsert, sunion, sinter, slist, hasNode, hasEdge,
      edgesBetween, successors, predecessors, degree, nodeNames, heappush, queueLt]
  refine ⟨hJ, ?_⟩
  rcases (neighbor_similarity_spec gThird 10 0 { processed := [], suggestions := [] }
      ("a", "b") (0, "a", "b")).1 with ⟨heq, _⟩ | ⟨s, _, _, _, _, _, hc⟩
  · exact heq
  · rw [hJ] at hc
    exact absurd hc.2.2.2 (by norm_num)

end ClaimC8

section ClaimC2

open TensorSemanticGraph DreamingEngine RelationTensor

/-- C2 counterexample: in the gRev graph the engine suggests the pair (a, b)
even though the edge b→a exists — the engine-level similarity strategy checks
only the forward direction before emitting. -/
theorem suggestion_reverse_edge_counterexample :
    ((generate_suggestions gRev 10 0).map fun s => (s.source, s.target)) =
      [("c", "d"), ("a", "b")] ∧ hasEdge gRev "b" "a" = true := by
  constructor
  · norm_num +decide [generate_suggestions, gRev, addR, mkRel, ensureNode,
      markConflicts, registerContext, mergeMatch, mergeInto, insertNew, strat1Step,
      strat2Step, strat3Step, mkSuggestion, calcStructuralHole, jaccardSimilarity,
      findIncompletePaths, orderedPairs, add_tensor, add_node, RelationTensor.postInit,
      RelationTensor.activate, RelationTensor.recalcMetrics, RelationTensor.defaults,
      RelationTensor.update_from_context, alGetD, alGet, alSet, alHas, alUpd, ctxMean,
      qmax, sinsert, sunion, sinter, slist, hasNode, hasEdge, edgesBetween, successors,
      predecessors, degree, nodeNames, heappush, queueLt]
  · norm_num +decide [gRev, addR, mkRel, ensureNode, markConflicts, registerContext,
      mergeMatch, mergeInto, insertNew, add_tensor, add_node, RelationTensor.postInit,
      RelationTensor.activate, RelationTensor.recalcMetrics, RelationTensor.defaults,
      RelationTensor.update_from_context, alGetD, alGet, alSet, alHas, alUpd, ctxMean,
      qmax, sinsert, hasNode, hasEdge, edgesBetween, heappush, queueLt]

/-- C2 (amended): every suggestion of the graph-level `dreaming_cycle` is for
a pair with no direct edge in either direction, but the engine-level
`generate_suggestions` guarantees only the forward direction: none of its
suggestions duplicates an existing forward edge, while a reverse edge may
exist (see the counterexample). -/
theorem no_suggestion_for_existing_edge (g : TensorSemanticGraph) (maxS : Nat)
    (now : ℚ) :
    (∀ s ∈ (dreaming_cycle g maxS now).1,
      hasEdge g s.source s.target = false ∧ hasEdge g s.target s.source = false) ∧
    (∀ s ∈ generate_suggestions g maxS now, hasEdge g s.source s.target = false) := by
  constructor
  · simp only [dreaming_cycle]
    split_ifs with h3
    · intro s hs
      exact absurd hs (List.not_mem_nil s)
    · exact foldl_induction _ _ _
        (fun st : DreamState => ∀ s ∈ st.suggestions,
          hasEdge g s.source s.target = false ∧ hasEdge g s.target s.source = false)
        (fun s hs => absurd hs (List.not_mem_nil s))
        (fun acc item _ hacc => dreamStep_sound g maxS now acc item hacc)
  · intro s hs
    simp only [generate_suggestions] at hs
    have hs' := List.take_subset maxS _ hs
    exact strat3Stage_sound g maxS now _
      (strat2Stage_sound g maxS now _
        (strat1Fold_sound g maxS now _
          (fun s₁ hs₁ => absurd hs₁ (List.not_mem_nil s₁)))) s hs'

/-- C2 witness: the first engine suggestion on the gThird graph indeed has no
forward edge. -/
theorem no_suggestion_for_existing_edge_witness :
    ∃ s ∈ generate_suggestions gThird 10 0, hasEdge gThird s.source s.target = false := by
  have hmap : ((generate_suggestions gThird 10 0).map fun s => (s.source, s.target)) =
      [("x", "y"), ("x", "z")] := by
    norm_num +decide [generate_suggestions, gThird, addR, mkRel, ensureNode,
      markConflicts, registerContext, mergeMatch, mergeInto, insertNew, strat1Step,
      strat2Step, strat3Step, mkSuggestion, calcStructuralHole, jaccardSimilarity,
      findIncompletePaths, orderedPairs, add_tensor, add_node, RelationTensor.postInit,
      RelationTensor.activate, RelationTensor.recalcMetrics, RelationTensor.defaults,
      RelationTensor.update_from_context, alGetD, alGet, alSet, alHas, alUpd, ctxMean,
      qmax, sinsert, sunion, sinter, slist, hasNode, hasEdge, edgesBetween, successors,
      predecessors, degree, nodeNames, heappush, queueLt]
  have hne : generate_suggestions gThird 10 0 ≠ [] := by
    intro h
    rw [h] at hmap
    exact absurd hmap (by simp)
  obtain ⟨s, hs⟩ := List.exists_mem_of_ne_nil _ hne
  exact ⟨s, hs, (no_suggestion_for_existing_edge gThird 10 0).2 s hs⟩

end ClaimC2

end SemanticDB

